import Mathlib

/-!
# Legacy bank program (`cpp_version_legacy/bank.cpp`)

A shallow embedding of the console banking program: the five parallel global
arrays and `totalAccounts`, the data file `bank_data.txt`, the stream
insertions and extractions the program performs on it, and the functions
`saveData`, `loadData`, `findAccount`, `login`, `accountCreation` and
`performTransaction`.

`float` is modelled as IEEE-754 binary32 with round-to-nearest-even, `int`
values are mathematical integers in the range of a 32-bit `int`, console
output is the list of text pieces written to `cout`, and console input is
passed in as the values the extractions from `cin` deliver.
-/

namespace BankLegacy

/-! ## binary32 -/

/-- A binary32 datum.  `fin neg m e` is the number `(-1)^neg * m * 2^e`. -/
inductive F32 where
  | nan : F32
  | inf (neg : Bool) : F32
  | fin (neg : Bool) (m : Nat) (e : Int) : F32
  deriving DecidableEq, Repr

namespace F32

/-- The representation every operation below produces: a 24-bit significand,
exponent of the last place between `-149` and `104`, and a full significand
unless the exponent is the least one (subnormals and zero). -/
def Canonical : F32 → Prop
  | fin _ m e => m < 2 ^ 24 ∧ -149 ≤ e ∧ e ≤ 104 ∧ (e = -149 ∨ 2 ^ 23 ≤ m)
  | _ => True

instance : DecidablePred Canonical := fun x => by
  cases x <;> unfold Canonical <;> infer_instance

/-- The rational number a finite datum stands for (`0` for the others). -/
def toRat : F32 → ℚ
  | fin neg m e => (if neg then -(m : ℚ) else (m : ℚ)) * (2 : ℚ) ^ e
  | _ => 0

def isFinite : F32 → Bool
  | fin _ _ _ => true
  | _ => false

/-- The significand of a finite datum (`0` for the others). -/
def significand : F32 → Nat
  | fin _ m _ => m
  | _ => 0

def log2Loop : Nat → Nat → Nat
  | 0, _ => 0
  | fuel + 1, n => if n < 2 then 0 else log2Loop fuel (n / 2) + 1

/-- Position of the leading bit of `n` (`0` for `n = 0`). -/
def log2 (n : Nat) : Nat := log2Loop n n

/-- Overflow check after rounding: exponents above `104` are infinite. -/
def pack (neg : Bool) (m : Nat) (t : Int) : F32 :=
  if 104 < t then inf neg else fin neg m t

/-- Round a quotient to the nearest integer, ties to even. -/
def roundHalfEven (num den : Nat) : Nat :=
  let q := num / den
  let r := num % den
  if den < 2 * r ∨ (2 * r = den ∧ q % 2 = 1) then q + 1 else q

/-- Round the exact value `m * 2^e` to binary32, to nearest, ties to even. -/
def round (neg : Bool) (m : Nat) (e : Int) : F32 :=
  if m = 0 then fin neg 0 (-149) else
  let t : Int := max (e + (log2 m : Int) - 23) (-149)
  if t ≤ e then pack neg (m * 2 ^ (e - t).toNat) t
  else
    let q := roundHalfEven m (2 ^ (t - e).toNat)
    if q = 2 ^ 24 then pack neg (2 ^ 23) (t + 1) else pack neg q t

/-- Round the exact value `n / d` to binary32, to nearest, ties to even
(the conversion of a decimal numeral). -/
def ofRatio (neg : Bool) (n d : Nat) : F32 :=
  if n = 0 then fin neg 0 (-149) else
  let est : Int := (log2 n : Int) - (log2 d : Int)
  let ex : Int := if d * 2 ^ est.toNat ≤ n * 2 ^ (-est).toNat then est else est - 1
  let t : Int := max (ex - 23) (-149)
  let q := roundHalfEven (n * 2 ^ (-t).toNat) (d * 2 ^ t.toNat)
  if q = 2 ^ 24 then pack neg (2 ^ 23) (t + 1) else pack neg q t

/-- Conversion `int` to `float`. -/
def ofInt (a : Int) : F32 := round (decide (a < 0)) a.natAbs 0

def signed (neg : Bool) (m : Nat) : Int := if neg then -(m : Int) else (m : Int)

/-- Operator `+` on `float`. -/
def add : F32 → F32 → F32
  | nan, _ => nan
  | _, nan => nan
  | inf a, inf b => if a = b then inf a else nan
  | inf a, fin _ _ _ => inf a
  | fin _ _ _, inf b => inf b
  | fin a m e, fin b n f =>
    let g := min e f
    let z : Int := signed a (m * 2 ^ (e - g).toNat) + signed b (n * 2 ^ (f - g).toNat)
    if z = 0 then fin (a && b) 0 (-149) else round (decide (z < 0)) z.natAbs g

def neg : F32 → F32
  | nan => nan
  | inf a => inf (!a)
  | fin a m e => fin (!a) m e

/-- Operator `-` on `float`. -/
def sub (x y : F32) : F32 := add x (neg y)

/-- Operator `<=` on `float` (false as soon as one side is a NaN). -/
def le : F32 → F32 → Bool
  | nan, _ => false
  | _, nan => false
  | inf a, inf b => a || !b
  | inf a, fin _ _ _ => a
  | fin _ _ _, inf b => !b
  | fin a m e, fin b n f =>
    let g := min e f
    decide (signed a (m * 2 ^ (e - g).toNat) ≤ signed b (n * 2 ^ (f - g).toNat))

/-- Operator `<` on `float` (false as soon as one side is a NaN). -/
def lt : F32 → F32 → Bool
  | nan, _ => false
  | _, nan => false
  | inf a, inf b => a && !b
  | inf a, fin _ _ _ => a
  | fin _ _ _, inf b => !b
  | fin a m e, fin b n f =>
    let g := min e f
    decide (signed a (m * 2 ^ (e - g).toNat) < signed b (n * 2 ^ (f - g).toNat))

/-- The literal `0.0`. -/
def zero : F32 := fin false 0 (-149)

/-- The largest finite `float`. -/
def maxFinite (neg : Bool) : F32 := fin neg (2 ^ 24 - 1) 104

end F32

/-! ## Text written by `operator<<` -/

def digitChar (d : Nat) : Char := Char.ofNat (48 + d)

def natDigitsLoop : Nat → Nat → List Char → List Char
  | 0, _, acc => acc
  | fuel + 1, n, acc =>
    if n < 10 then digitChar n :: acc
    else natDigitsLoop fuel (n / 10) (digitChar (n % 10) :: acc)

/-- Decimal digits of a natural number, most significant first. -/
def natDigits (n : Nat) : List Char := natDigitsLoop (n + 1) n []

/-- Text of `stream << i` for an `int`. -/
def fmtInt (a : Int) : List Char :=
  if a < 0 then '-' :: natDigits a.natAbs else natDigits a.natAbs

/-- Remove the zeros at the end of a digit string. -/
def stripZeros (ds : List Char) : List Char :=
  (ds.reverse.dropWhile (fun c => c = '0')).reverse

/-- Largest `x` at most `start` with `10^x ≤ n / d`, searched downwards. -/
def decExpLoop (n d : Nat) : Nat → Int → Int
  | 0, x => x
  | fuel + 1, x =>
    if d * 10 ^ x.toNat ≤ n * 10 ^ (-x).toNat then x else decExpLoop n d fuel (x - 1)

/-- Text of the positive number `n / d` in the default floating-point format
of a stream: six significant digits, rounded to nearest (ties to even), in
fixed form when the decimal exponent lies in `[-4, 5]` and in scientific
form otherwise, no trailing zeros. -/
def fmtPositive (n d : Nat) : List Char :=
  let x0 := decExpLoop n d 90 38
  let sig0 := F32.roundHalfEven (n * 10 ^ (5 - x0).toNat) (d * 10 ^ (x0 - 5).toNat)
  let x : Int := if sig0 = 10 ^ 6 then x0 + 1 else x0
  let sig : Nat := if sig0 = 10 ^ 6 then 10 ^ 5 else sig0
  let ds := natDigits sig
  if x < -4 ∨ 6 ≤ x then
    let frac := stripZeros (ds.drop 1)
    let ex := natDigits x.natAbs
    ds.take 1 ++ (if frac = [] then [] else '.' :: frac)
      ++ 'e' :: (if x < 0 then '-' else '+') :: (if ex.length < 2 then '0' :: ex else ex)
  else if 0 ≤ x then
    let frac := stripZeros (ds.drop (x.toNat + 1))
    ds.take (x.toNat + 1) ++ (if frac = [] then [] else '.' :: frac)
  else
    '0' :: '.' :: stripZeros (List.replicate ((-x).toNat - 1) '0' ++ ds)

/-- Text of `stream << x` for a `float`, the stream in its default state. -/
def fmtFloat : F32 → List Char
  | F32.nan => ['n', 'a', 'n']
  | F32.inf neg => (if neg then ['-'] else []) ++ ['i', 'n', 'f']
  | F32.fin neg m e =>
    (if neg then ['-'] else []) ++
      (if m = 0 then ['0'] else fmtPositive (m * 2 ^ e.toNat) (2 ^ (-e).toNat))

/-! ## Values read by `operator>>` -/

/-- The whitespace an extraction skips. -/
def isSpace (c : Char) : Bool :=
  c = ' ' || c = '\t' || c = '\n' || c = '\r' || c = Char.ofNat 11 || c = Char.ofNat 12

def isDigit (c : Char) : Bool := decide ('0' ≤ c) && decide (c ≤ '9')

def digitVal (c : Char) : Nat := c.toNat - 48

/-- Value of a string of decimal digits. -/
def digitsVal (ds : List Char) : Nat := ds.foldl (fun acc c => 10 * acc + digitVal c) 0

/-- What one extraction leaves behind: the value it stored into its operand
(`none`: the operand is not touched), whether the stream is still good, and
the unread input. -/
structure Extract (α : Type) where
  stored : Option α
  good : Bool
  rest : List Char

/-- Extraction `stream >> str` into a `string`: skip whitespace, then take
the characters up to the next whitespace; fails at the end of the input. -/
def readString (input : List Char) : Extract String :=
  let r := input.dropWhile isSpace
  if r = [] then ⟨none, false, []⟩
  else ⟨some (String.mk (r.takeWhile (fun c => !isSpace c))), true, r.dropWhile (fun c => !isSpace c)⟩

/-- Extraction `stream >> i` into an `int`: optional sign, decimal digits;
no digit stores `0` and fails, a value out of range stores the nearest
bound and fails. -/
def readInt (input : List Char) : Extract Int :=
  let r := input.dropWhile isSpace
  match r with
  | [] => ⟨none, false, []⟩
  | c :: cs =>
    let negative := decide (c = '-')
    let body := if c = '-' ∨ c = '+' then cs else r
    let ds := body.takeWhile isDigit
    let rest := body.dropWhile isDigit
    if ds = [] then ⟨some 0, false, rest⟩
    else
      let v := digitsVal ds
      if negative then
        if 2 ^ 31 < v then ⟨some (-(2 ^ 31)), false, rest⟩ else ⟨some (-(v : Int)), true, rest⟩
      else
        if 2 ^ 31 - 1 < v then ⟨some (2 ^ 31 - 1), false, rest⟩ else ⟨some (v : Int), true, rest⟩

/-- The characters a `float` extraction accumulates after sign and leading
zeros: digits, one decimal point before any exponent, one exponent mark
after a digit with its optional sign (`sgn`: the exponent mark was the
previous character).  Returns them (reversed) with the unread input. -/
def scanFloat : Bool → Bool → Bool → Bool → List Char → List Char → List Char × List Char
  | _, _, _, _, acc, [] => (acc, [])
  | dec, sci, mant, sgn, acc, c :: cs =>
    if sgn = true ∧ (c = '+' ∨ c = '-') then scanFloat dec sci mant false (c :: acc) cs
    else if isDigit c then scanFloat dec sci true false (c :: acc) cs
    else if c = '.' ∧ dec = false ∧ sci = false then scanFloat true sci mant false ('.' :: acc) cs
    else if (c = 'e' ∨ c = 'E') ∧ sci = false ∧ mant = true then
      scanFloat dec true mant true ('e' :: acc) cs
    else (acc, c :: cs)

/-- Conversion of the accumulated characters (after the sign) to a number:
`none` unless they are a complete decimal numeral, that is, at least one
digit in the significand and, after an exponent mark, at least one digit. -/
def convertFloat (neg : Bool) (xs : List Char) : Option F32 :=
  let ip := xs.takeWhile isDigit
  let r1 := xs.dropWhile isDigit
  let hasDot := decide (r1.head? = some '.')
  let r2 := if hasDot then r1.drop 1 else r1
  let fp := r2.takeWhile isDigit
  let r3 := r2.dropWhile isDigit
  if ip = [] ∧ fp = [] then none
  else
    let m := digitsVal (ip ++ fp)
    match r3 with
    | [] => some (F32.ofRatio neg m (10 ^ fp.length))
    | c :: r4 =>
      if c ≠ 'e' then none
      else
        let eneg := decide (r4.head? = some '-')
        let r5 := if r4.head? = some '-' ∨ r4.head? = some '+' then r4.drop 1 else r4
        if r5 = [] ∨ r5.all isDigit = false then none
        else
          let x : Int := (if eneg then -(digitsVal r5 : Int) else (digitsVal r5 : Int)) - fp.length
          some (F32.ofRatio neg (m * 10 ^ x.toNat) (10 ^ (-x).toNat))

/-- Extraction `stream >> x` into a `float`: sign, leading zeros (kept as a
single `0`), then the characters of `scanFloat`; the accumulated text must
convert as a whole, else `0` is stored and the stream fails; a result that
overflows stores the largest finite value and fails. -/
def readFloat (input : List Char) : Extract F32 :=
  let r := input.dropWhile isSpace
  match r with
  | [] => ⟨none, false, []⟩
  | c :: cs =>
    let neg := decide (c = '-')
    let body := if c = '-' ∨ c = '+' then cs else r
    let zeros := body.takeWhile (fun c => c = '0')
    let body1 := body.dropWhile (fun c => c = '0')
    let sc := scanFloat false false (decide (zeros ≠ [])) false (if zeros = [] then [] else ['0']) body1
    match convertFloat neg sc.1.reverse with
    | none => ⟨some F32.zero, false, sc.2⟩
    | some (F32.inf n) => ⟨some (F32.maxFinite n), false, sc.2⟩
    | some v => ⟨some v, true, sc.2⟩

/-! ## Program state -/

def WITHDRAW_LIMIT : Int := 300000

/-- The globals of the program and the data file.  The arrays are maps from
slot numbers; the program declares `100` slots each, and `readRecord` below
marks the one place where it can be made to store past them.  `file` is the
content of `bank_data.txt` (`none`: no such file); opening it for writing is
taken to succeed. -/
structure Bank where
  Acc_num : Nat → String
  Acc_name : Nat → String
  Acc_surname : Nat → String
  Acc_balance : Nat → F32
  Acc_password : Nat → Int
  totalAccounts : Nat
  file : Option (List Char)

/-- State at program start: zero-initialised globals, the file as found. -/
def Bank.start (file : Option (List Char)) : Bank :=
  ⟨fun _ => "", fun _ => "", fun _ => "", fun _ => F32.zero, fun _ => 0, 0, file⟩

/-- One line of the data file, as `saveData` writes it for slot `i`. -/
def recordLine (s : Bank) (i : Nat) : List Char :=
  (s.Acc_num i).data ++ ' ' :: (s.Acc_name i).data ++ ' ' :: (s.Acc_surname i).data
    ++ ' ' :: fmtFloat (s.Acc_balance i) ++ ' ' :: fmtInt (s.Acc_password i) ++ ['\n']

/-- The `for` loop of `saveData`: `n` iterations left, at slot `i`. -/
def saveLoop (s : Bank) : Nat → Nat → List Char
  | 0, _ => []
  | n + 1, i => recordLine s i ++ saveLoop s n (i + 1)

/-- Function `saveData`: rewrite the whole file from the live slots. -/
def saveData (s : Bank) : Bank :=
  { s with file := some (saveLoop s s.totalAccounts 0) }

/-- How `loadData` ends: normally, or by storing into slot `100` or beyond,
which is outside the arrays (`s` is the state at that moment). -/
inductive Loaded where
  | done (s : Bank) : Loaded
  | outOfBounds (s : Bank) : Loaded

/-- Outcome of one evaluation of the condition of the `while` loop of
`loadData`: all five extractions succeeded (`more`, with the unread input),
one of them failed (`stop`), or the first one stores into slot `100` or
beyond (`outOfBounds`). -/
inductive RecordStep where
  | more (rest : List Char) (s : Bank) : RecordStep
  | stop (s : Bank) : RecordStep
  | outOfBounds (s : Bank) : RecordStep

/-- The condition of the `while` loop of `loadData`: the chain of five
extractions into the slot `totalAccounts`.  Each extraction stores into its
array; the chain stops at the first extraction that fails. -/
def readRecord (input : List Char) (s : Bank) : RecordStep :=
  let t := s.totalAccounts
  let r1 := readString input
  match r1.stored with
  | none => RecordStep.stop s
  | some v1 =>
    if 100 ≤ t then RecordStep.outOfBounds s
    else
      let s1 := { s with Acc_num := Function.update s.Acc_num t v1 }
      let r2 := readString r1.rest
      match r2.stored with
      | none => RecordStep.stop s1
      | some v2 =>
        let s2 := { s1 with Acc_name := Function.update s1.Acc_name t v2 }
        let r3 := readString r2.rest
        match r3.stored with
        | none => RecordStep.stop s2
        | some v3 =>
          let s3 := { s2 with Acc_surname := Function.update s2.Acc_surname t v3 }
          let r4 := readFloat r3.rest
          match r4.stored with
          | none => RecordStep.stop s3
          | some v4 =>
            let s4 := { s3 with Acc_balance := Function.update s3.Acc_balance t v4 }
            if r4.good = false then RecordStep.stop s4
            else
              let r5 := readInt r4.rest
              match r5.stored with
              | none => RecordStep.stop s4
              | some v5 =>
                let s5 := { s4 with Acc_password := Function.update s4.Acc_password t v5 }
                if r5.good = false then RecordStep.stop s5
                else RecordStep.more r5.rest s5

/-- The `while` loop of `loadData`: as long as a whole record is read,
`totalAccounts` is incremented.  The first argument bounds the number of
iterations; `loadLoop_fuel` shows that the length of the input suffices. -/
def loadLoop : Nat → List Char → Bank → Loaded
  | 0, _, s => Loaded.done s
  | fuel + 1, input, s =>
    match readRecord input s with
    | RecordStep.stop s1 => Loaded.done s1
    | RecordStep.outOfBounds s1 => Loaded.outOfBounds s1
    | RecordStep.more rest s1 =>
      loadLoop fuel rest { s1 with totalAccounts := s1.totalAccounts + 1 }

/-- Function `loadData`: nothing happens without a file; otherwise the
records are read from the start of the file into slots `0, 1, ...`. -/
def loadData (s : Bank) : Loaded :=
  match s.file with
  | none => Loaded.done s
  | some text => loadLoop (text.length + 1) text { s with totalAccounts := 0 }

/-- The `for` loop of `findAccount`: `n` iterations left, at slot `i`. -/
def findLoop (s : Bank) (cnic : String) : Nat → Nat → Int
  | 0, _ => -1
  | n + 1, i => if s.Acc_num i = cnic then (i : Int) else findLoop s cnic n (i + 1)

/-- Function `findAccount`: first slot holding `cnic`, or `-1`. -/
def findAccount (s : Bank) (cnic : String) : Int :=
  findLoop s cnic s.totalAccounts 0

/-- Function `login`; `password` is the value read from `cin` once the
account is found.  Returns the `bool` and the text written. -/
def login (s : Bank) (cnic : String) (password : Int) : Bool × List String :=
  let index := findAccount s cnic
  if index = -1 then
    (false, ["Account not found! Please create an account or re-enter correct credentials.\n"])
  else if password = s.Acc_password index.toNat then
    (true, ["Enter your 4-digit password: ",
      "Login successful!\n",
      "Welcome Back, " ++ s.Acc_name index.toNat ++ " " ++ s.Acc_surname index.toNat ++ "\n",
      "Your account number is: " ++ s.Acc_num index.toNat ++ "\n",
      "Your current balance is: " ++ String.mk (fmtFloat (s.Acc_balance index.toNat)) ++ "\n"])
  else
    (false, ["Enter your 4-digit password: ",
      "Incorrect password! Please create an account or re-enter correct credentials.\n"])

/-- What a call of `accountCreation` has done once the given console input
is used up: the state, the text written, and whether the call has returned
(`false`: it is still in its password loop, asking again). -/
structure Creation where
  bank : Bank
  out : List String
  returned : Bool

/-- The `while (true)` loop of `accountCreation`, one pair
`(password, confirm_password)` per round.  Once the pairs are used up the
loop has written its first prompt and waits. -/
def passwordLoop (s : Bank) (name surname cnic : String) : List (Int × Int) → Creation
  | [] => ⟨s, ["Enter your 4-digit Password: "], false⟩
  | (password, confirm_password) :: more =>
    if 1000 ≤ password ∧ password ≤ 9999 then
      if password = confirm_password then
        let t := s.totalAccounts
        let s1 : Bank :=
          { s with
            Acc_num := Function.update s.Acc_num t cnic
            Acc_name := Function.update s.Acc_name t name
            Acc_surname := Function.update s.Acc_surname t surname
            Acc_balance := Function.update s.Acc_balance t F32.zero
            Acc_password := Function.update s.Acc_password t password
            totalAccounts := t + 1 }
        ⟨saveData s1,
          ["Enter your 4-digit Password: ", "Confirm Password: ",
            "Your account is created successfully!\n"], true⟩
      else
        let r := passwordLoop s name surname cnic more
        ⟨r.bank, ["Enter your 4-digit Password: ", "Confirm Password: ",
          "Passwords do not match!\n"] ++ r.out, r.returned⟩
    else
      let r := passwordLoop s name surname cnic more
      ⟨r.bank, ["Enter your 4-digit Password: ", "Confirm Password: ",
        "Invalid password! It must be a 4-digit number.\n"] ++ r.out, r.returned⟩

/-- Function `accountCreation`; the strings are the four tokens read from
`cin` and `attempts` the password pairs entered after them. -/
def accountCreation (s : Bank) (name surname cnic phone_number : String)
    (attempts : List (Int × Int)) : Creation :=
  if 100 ≤ s.totalAccounts then
    ⟨s, ["Cannot create more accounts, limit reached!\n"], true⟩
  else
    let _ := phone_number
    let r := passwordLoop s name surname cnic attempts
    ⟨r.bank, ["Enter your Name (without spaces): ", "Enter your Surname (without spaces): ",
      "Enter your CNIC (without spaces): ", "Enter your Phone number (without spaces): "] ++ r.out,
      r.returned⟩

/-- What a call of `performTransaction` leaves: the state, the two
reference parameters, and the text written. -/
structure Transaction where
  bank : Bank
  balance : F32
  currentBalance : F32
  out : List String

/-- Function `performTransaction`; `amount` is the value read from `cin` in
the deposit and withdraw branches. -/
def performTransaction (option : Int) (index : Nat) (balance currentBalance : F32)
    (amount : Int) (s : Bank) : Transaction :=
  if option = 1 then
    if 0 < amount then
      let balance1 := F32.add balance (F32.ofInt amount)
      let s1 := { s with Acc_balance := Function.update s.Acc_balance index balance1 }
      ⟨saveData s1, balance1, balance1,
        ["Enter amount to deposit: ", "Deposit successful!\n",
          "Remaining Balance: " ++ String.mk (fmtFloat balance1) ++ "\n"]⟩
    else
      ⟨s, balance, currentBalance, ["Enter amount to deposit: ", "Invalid amount!\n"]⟩
  else if option = 2 then
    if 0 < amount ∧ amount ≤ WITHDRAW_LIMIT then
      if F32.le (F32.ofInt amount) balance = true then
        let balance1 := F32.sub balance (F32.ofInt amount)
        let s1 := { s with Acc_balance := Function.update s.Acc_balance index balance1 }
        ⟨saveData s1, balance1, balance1,
          ["Enter amount to withdraw: ", "Withdrawal successful!\n",
            "Remaining Balance: " ++ String.mk (fmtFloat balance1) ++ "\n"]⟩
      else
        ⟨s, balance, currentBalance, ["Enter amount to withdraw: ", "Not enough balance!\n"]⟩
    else
      ⟨s, balance, currentBalance,
        ["Enter amount to withdraw: ",
          "Amount exceeds withdrawal limit of " ++ String.mk (fmtInt WITHDRAW_LIMIT) ++ "!\n"]⟩
  else if option = 3 then
    ⟨s, balance, currentBalance,
      ["Current Balance: " ++ String.mk (fmtFloat currentBalance) ++ "\n"]⟩
  else
    ⟨s, balance, currentBalance, []⟩

/-! ## Auxiliary definitions used in the statements -/

/-- The datum `r` is the rounding of the number `x` to binary32: it is a
finite binary32 datum, no finite binary32 datum is closer to `x`, and when
another one is as close, the significand of `r` is even. -/
def F32.IsRounding (r : F32) (x : ℚ) : Prop :=
  r.Canonical ∧ r.isFinite = true
  ∧ (∀ v : F32, v.Canonical → v.isFinite = true → |r.toRat - x| ≤ |v.toRat - x|)
  ∧ (∀ v : F32, v.Canonical → v.isFinite = true → |v.toRat - x| = |r.toRat - x| →
      v.toRat ≠ r.toRat → r.significand % 2 = 0)

/-- The text of the rounds of the password loop that reject their pair:
both prompts, then "Invalid password" for a password outside `[1000, 9999]`
and "Passwords do not match" otherwise. -/
def rejectionText : List (Int × Int) → List String
  | [] => []
  | (password, _) :: more =>
    ["Enter your 4-digit Password: ", "Confirm Password: ",
      if 1000 ≤ password ∧ password ≤ 9999 then "Passwords do not match!\n"
      else "Invalid password! It must be a 4-digit number.\n"] ++ rejectionText more

def Loaded.bank : Loaded → Bank
  | Loaded.done s => s
  | Loaded.outOfBounds s => s

def Loaded.overflowed : Loaded → Bool
  | Loaded.done _ => false
  | Loaded.outOfBounds _ => true

/-- The call created an account: it returned after writing its success
message. -/
def Creation.created (r : Creation) : Bool :=
  r.returned && decide (r.out.getLast? = some "Your account is created successfully!\n")

/-- The console input of one call of `accountCreation`. -/
structure CreationInput where
  name : String
  surname : String
  cnic : String
  phone_number : String
  attempts : List (Int × Int)

/-- A run of calls of `accountCreation`, each of which creates an account
(`none` as soon as one does not). -/
def createAll (s : Bank) : List CreationInput → Option Bank
  | [] => some s
  | i :: more =>
    let r := accountCreation s i.name i.surname i.cnic i.phone_number i.attempts
    if r.created = true then createAll r.bank more else none

/-- A store holding the single account of the end-to-end scenario, with the
given balance. -/
def oneAccount (balance : F32) : Bank :=
  { Bank.start none with
    Acc_num := Function.update (fun _ => "") 0 "12345"
    Acc_name := Function.update (fun _ => "") 0 "Ali"
    Acc_surname := Function.update (fun _ => "") 0 "Khan"
    Acc_balance := Function.update (fun _ => F32.zero) 0 balance
    Acc_password := Function.update (fun _ => 0) 0 4321
    totalAccounts := 1 }

/-- The end-to-end scenario up to its first deposit: the program starts
without a data file, account `12345` is created, its owner logs in (the
session balance is the `0.0` of slot `0`) and deposits `amount`. -/
def scenarioDeposit (amount : Int) : Transaction :=
  performTransaction 1 0 F32.zero F32.zero amount
    (accountCreation (Bank.start none) "Ali" "Khan" "12345" "0300" [(4321, 4321)]).bank

/-- A data file of `n` identical well-formed records. -/
def recordsFile (n : Nat) : List Char :=
  (List.replicate n ['a', ' ', 'b', ' ', 'c', ' ', '0', ' ', '1', '0', '0', '0', '\n']).flatten

/-! ## Lemmas -/

theorem fmtInt_limit : String.mk (fmtInt WITHDRAW_LIMIT) = "300000" := by decide

theorem F32.lt_imp_not_le (x y : F32) (h : F32.lt x y = true) : F32.le y x = false := by
  cases x with
  | nan => simp [F32.lt] at h
  | inf a =>
    cases y with
    | nan => simp [F32.lt] at h
    | inf b => cases a <;> cases b <;> simp_all [F32.lt, F32.le]
    | fin b n f => simp_all [F32.lt, F32.le]
  | fin a m e =>
    cases y with
    | nan => simp [F32.lt] at h
    | inf b => simp_all [F32.lt, F32.le]
    | fin b n f =>
      simp only [F32.lt, decide_eq_true_eq] at h
      simp only [F32.le, decide_eq_false_iff_not, not_le]
      rw [min_comm f e]
      exact h

theorem findLoop_none (s : Bank) (cnic : String) (n i : Nat)
    (h : ∀ j, i ≤ j → j < i + n → s.Acc_num j ≠ cnic) : findLoop s cnic n i = -1 := by
  induction n generalizing i with
  | zero => rfl
  | succ n ih =>
    have h0 : s.Acc_num i ≠ cnic := h i (le_refl i) (by omega)
    simp only [findLoop, h0, if_false]
    exact ih (i + 1) (fun j h1 h2 => h j (by omega) (by omega))

theorem findLoop_first (s : Bank) (cnic : String) (n i k : Nat) (hik : i ≤ k) (hk : k < i + n)
    (hm : s.Acc_num k = cnic) (hfirst : ∀ j, i ≤ j → j < k → s.Acc_num j ≠ cnic) :
    findLoop s cnic n i = (k : Int) := by
  induction n generalizing i with
  | zero => omega
  | succ n ih =>
    by_cases hki : k = i
    · subst hki
      simp [findLoop, hm]
    · have h0 : s.Acc_num i ≠ cnic := hfirst i (le_refl i) (by omega)
      simp only [findLoop, h0, if_false]
      exact ih (i + 1) (by omega) (by omega) (fun j h1 h2 => hfirst j (by omega) h2)

theorem findLoop_found (s : Bank) (cnic : String) (n i : Nat) (h : findLoop s cnic n i ≠ -1) :
    ∃ k, i ≤ k ∧ k < i + n ∧ s.Acc_num k = cnic ∧ (∀ j, i ≤ j → j < k → s.Acc_num j ≠ cnic)
      ∧ findLoop s cnic n i = (k : Int) := by
  induction n generalizing i with
  | zero => exact absurd rfl h
  | succ n ih =>
    by_cases h0 : s.Acc_num i = cnic
    · exact ⟨i, le_refl i, by omega, h0, fun j h1 h2 => by omega, by simp [findLoop, h0]⟩
    · have hrec : findLoop s cnic (n + 1) i = findLoop s cnic n (i + 1) := by
        simp [findLoop, h0]
      rw [hrec] at h
      obtain ⟨k, h1, h2, h3, h4, h5⟩ := ih (i + 1) h
      refine ⟨k, by omega, by omega, h3, ?_, by rw [hrec]; exact h5⟩
      intro j hj1 hj2
      by_cases hji : j = i
      · subst hji; exact h0
      · exact h4 j (by omega) hj2

/-! ## The bound on the iterations of the loading loop -/

theorem dropWhile_length_le (p : Char → Bool) (l : List Char) :
    (l.dropWhile p).length ≤ l.length :=
  (List.dropWhile_sublist p).length_le

theorem scanFloat_rest_length (dec sci mant sgn : Bool) (acc l : List Char) :
    (scanFloat dec sci mant sgn acc l).2.length ≤ l.length := by
  induction l generalizing dec sci mant sgn acc with
  | nil => simp [scanFloat]
  | cons c cs ih =>
    unfold scanFloat
    split
    · exact Nat.le_succ_of_le (ih _ _ _ _ _)
    · split
      · exact Nat.le_succ_of_le (ih _ _ _ _ _)
      · split
        · exact Nat.le_succ_of_le (ih _ _ _ _ _)
        · split
          · exact Nat.le_succ_of_le (ih _ _ _ _ _)
          · exact le_refl _

theorem readString_rest_length (input : List Char) (v : String)
    (h : (readString input).stored = some v) :
    (readString input).rest.length < input.length := by
  have hle := dropWhile_length_le isSpace input
  simp only [readString] at h ⊢
  cases hr : input.dropWhile isSpace with
  | nil => simp [hr] at h
  | cons c cs =>
    rw [hr] at hle
    have hc : isSpace c = false := by
      have := List.head_dropWhile_not isSpace input (by rw [hr]; simp)
      simpa [hr] using this
    have h1 := dropWhile_length_le (fun c => !isSpace c) cs
    simp only [List.dropWhile_cons, hc, Bool.not_false, reduceCtorEq, if_false, if_true]
    simp only [List.length_cons] at hle
    omega

theorem readFloat_rest_length (input : List Char) :
    (readFloat input).rest.length ≤ input.length := by
  have hle := dropWhile_length_le isSpace input
  simp only [readFloat]
  cases hr : input.dropWhile isSpace with
  | nil => simp
  | cons c cs =>
    rw [hr] at hle
    simp only [List.length_cons] at hle
    have key : ∀ body : List Char, body.length ≤ cs.length + 1 →
        (scanFloat false false
          (decide (body.takeWhile (fun c => decide (c = '0')) ≠ [])) false
          (if body.takeWhile (fun c => decide (c = '0')) = [] then [] else ['0'])
          (body.dropWhile (fun c => decide (c = '0')))).2.length ≤ input.length := by
      intro body hb
      have hz := dropWhile_length_le (fun c => decide (c = '0')) body
      have hs := scanFloat_rest_length false false
        (decide (body.takeWhile (fun c => decide (c = '0')) ≠ [])) false
        (if body.takeWhile (fun c => decide (c = '0')) = [] then [] else ['0'])
        (body.dropWhile (fun c => decide (c = '0')))
      omega
    by_cases hsign : c = '-' ∨ c = '+'
    · simp only [hsign, if_true]
      have := key cs (by omega)
      split <;> exact this
    · simp only [hsign, if_false]
      have := key (c :: cs) (by simp)
      split <;> exact this

theorem readInt_rest_length (input : List Char) :
    (readInt input).rest.length ≤ input.length := by
  have hle := dropWhile_length_le isSpace input
  simp only [readInt]
  cases hr : input.dropWhile isSpace with
  | nil => simp
  | cons c cs =>
    rw [hr] at hle
    simp only [List.length_cons] at hle
    have key : ∀ body : List Char, body.length ≤ cs.length + 1 →
        (body.dropWhile isDigit).length ≤ input.length := by
      intro body hb
      have hz := dropWhile_length_le isDigit body
      omega
    by_cases hsign : c = '-' ∨ c = '+'
    · simp only [hsign, if_true]
      have := key cs (by omega)
      repeat' split
      all_goals exact this
    · simp only [hsign, if_false]
      have := key (c :: cs) (by simp)
      repeat' split
      all_goals exact this

theorem readRecord_more_length (input : List Char) (s s1 : Bank) (rest : List Char)
    (h : readRecord input s = RecordStep.more rest s1) :
    rest.length < input.length := by
  unfold readRecord at h
  dsimp only at h
  split at h
  · exact absurd h (by simp)
  · rename_i v1 h1
    split at h
    · exact absurd h (by simp)
    · split at h
      · exact absurd h (by simp)
      · rename_i v2 h2
        split at h
        · exact absurd h (by simp)
        · rename_i v3 h3
          split at h
          · exact absurd h (by simp)
          · split at h
            · exact absurd h (by simp)
            · split at h
              · exact absurd h (by simp)
              · split at h
                · exact absurd h (by simp)
                · simp only [RecordStep.more.injEq] at h
                  have l1 := readString_rest_length input v1 h1
                  have l2 := readString_rest_length _ v2 h2
                  have l3 := readString_rest_length _ v3 h3
                  have l4 := readFloat_rest_length (readString (readString (readString input).rest).rest).rest
                  have l5 := readInt_rest_length (readFloat (readString (readString (readString input).rest).rest).rest).rest
                  rw [← h.1]
                  omega

/-- The bound on the iterations of `loadLoop` is never what ends the loop:
any two bounds above the length of the input give the same result. -/
theorem loadLoop_fuel (fuel1 fuel2 : Nat) (input : List Char) (s : Bank)
    (h1 : input.length < fuel1) (h2 : input.length < fuel2) :
    loadLoop fuel1 input s = loadLoop fuel2 input s := by
  induction fuel1 generalizing fuel2 input s with
  | zero => omega
  | succ n ih =>
    cases fuel2 with
    | zero => omega
    | succ k =>
      simp only [loadLoop]
      cases hr : readRecord input s with
      | stop s1 => rfl
      | outOfBounds s1 => rfl
      | more rest s1 =>
        have hl := readRecord_more_length input s s1 rest hr
        exact ih k rest _ (by omega) (by omega)

/-! ## Withdrawals that are refused -/

theorem withdraw_outside_range (s : Bank) (index : Nat) (balance currentBalance : F32)
    (amount : Int) (h : ¬ (0 < amount ∧ amount ≤ WITHDRAW_LIMIT)) :
    performTransaction 2 index balance currentBalance amount s =
      ⟨s, balance, currentBalance,
        ["Enter amount to withdraw: ", "Amount exceeds withdrawal limit of 300000!\n"]⟩ := by
  simp only [performTransaction, h, if_false, fmtInt_limit]
  rfl


/-- C1: a withdrawal of more than `WITHDRAW_LIMIT` writes the limit message
whatever the balance is, and leaves the globals, the data file and both
balance variables of the session as they were. -/
theorem withdraw_over_limit (s : Bank) (index : Nat) (balance currentBalance : F32)
    (amount : Int) (h : WITHDRAW_LIMIT < amount) :
    performTransaction 2 index balance currentBalance amount s =
      ⟨s, balance, currentBalance,
        ["Enter amount to withdraw: ", "Amount exceeds withdrawal limit of 300000!\n"]⟩ :=
  withdraw_outside_range s index balance currentBalance amount
    (fun hc => absurd hc.2 (not_le.2 h))

theorem withdraw_over_limit_witness :
    F32.le (F32.ofInt 300001) (F32.ofInt 400000) = true ∧
    performTransaction 2 0 (F32.ofInt 400000) (F32.ofInt 400000) 300001
        (oneAccount (F32.ofInt 400000)) =
      ⟨oneAccount (F32.ofInt 400000), F32.ofInt 400000, F32.ofInt 400000,
        ["Enter amount to withdraw: ", "Amount exceeds withdrawal limit of 300000!\n"]⟩ :=
  ⟨by decide, withdraw_over_limit _ 0 _ _ 300001 (by decide)⟩

/-- C2: a withdrawal of `-5` or of `0` is answered with the very message of
a withdrawal above the limit, not with the invalid-amount message that the
deposit branch writes for the same amounts; the state stays as it was. -/
theorem withdraw_nonpositive_reports_limit (s : Bank) (index : Nat)
    (balance currentBalance : F32) :
    performTransaction 2 index balance currentBalance (-5) s =
        ⟨s, balance, currentBalance,
          ["Enter amount to withdraw: ", "Amount exceeds withdrawal limit of 300000!\n"]⟩
    ∧ performTransaction 2 index balance currentBalance 0 s =
        ⟨s, balance, currentBalance,
          ["Enter amount to withdraw: ", "Amount exceeds withdrawal limit of 300000!\n"]⟩
    ∧ performTransaction 2 index balance currentBalance (-5) s =
        performTransaction 2 index balance currentBalance 300001 s
    ∧ performTransaction 1 index balance currentBalance (-5) s =
        ⟨s, balance, currentBalance, ["Enter amount to deposit: ", "Invalid amount!\n"]⟩ := by
  have e1 := withdraw_outside_range s index balance currentBalance (-5) (by decide)
  have e2 := withdraw_outside_range s index balance currentBalance 0 (by decide)
  have e3 := withdraw_outside_range s index balance currentBalance 300001 (by decide)
  refine ⟨e1, e2, ?_, ?_⟩
  · rw [e1, e3]
  · have h1 : ¬ (0 < (-5 : Int)) := by decide
    simp only [performTransaction, h1, if_false]
    rfl

/-- C3: a withdrawal of an amount within the limit but above the balance
(`balance < amount` as `float`s, which for a finite balance is the
comparison of the numbers, see `F32.lt_ofInt_iff`) writes the
not-enough-balance message and leaves the globals, the data file and both
balance variables as they were. -/
theorem withdraw_insufficient (s : Bank) (index : Nat) (balance currentBalance : F32)
    (amount : Int) (h0 : 0 < amount) (hl : amount ≤ WITHDRAW_LIMIT)
    (hb : F32.lt balance (F32.ofInt amount) = true) :
    performTransaction 2 index balance currentBalance amount s =
      ⟨s, balance, currentBalance, ["Enter amount to withdraw: ", "Not enough balance!\n"]⟩ := by
  have h1 : 0 < amount ∧ amount ≤ WITHDRAW_LIMIT := ⟨h0, hl⟩
  have h2 : ¬ (F32.le (F32.ofInt amount) balance = true) := by
    rw [F32.lt_imp_not_le _ _ hb]; decide
  simp only [performTransaction, h1, h2, if_false, if_true]
  rfl

theorem withdraw_insufficient_witness :
    performTransaction 2 0 (F32.ofInt 3000) (F32.ofInt 3000) 5000 (oneAccount (F32.ofInt 3000)) =
      ⟨oneAccount (F32.ofInt 3000), F32.ofInt 3000, F32.ofInt 3000,
        ["Enter amount to withdraw: ", "Not enough balance!\n"]⟩ :=
  withdraw_insufficient _ 0 _ _ 5000 (by decide) (by decide) (by decide)

/-! ## Login -/

/-- C8: `login` answers "Account not found" exactly when no live slot holds
the identifier; otherwise `findAccount` returns the first slot holding it
(whatever later slots hold), and `login` returns `true` when the password
read equals the `int` stored in that slot and writes "Incorrect password"
and returns `false` when it differs. -/
theorem login_decides_on_first_match (s : Bank) (cnic : String) (password : Int) :
    ((login s cnic password).2 =
        ["Account not found! Please create an account or re-enter correct credentials.\n"]
      ↔ ∀ i, i < s.totalAccounts → s.Acc_num i ≠ cnic)
    ∧ ((∀ i, i < s.totalAccounts → s.Acc_num i ≠ cnic) →
        findAccount s cnic = -1 ∧ (login s cnic password).1 = false)
    ∧ (∀ k, k < s.totalAccounts → s.Acc_num k = cnic → (∀ j, j < k → s.Acc_num j ≠ cnic) →
        findAccount s cnic = (k : Int)
        ∧ (password = s.Acc_password k →
            login s cnic password =
              (true, ["Enter your 4-digit password: ",
                "Login successful!\n",
                "Welcome Back, " ++ s.Acc_name k ++ " " ++ s.Acc_surname k ++ "\n",
                "Your account number is: " ++ s.Acc_num k ++ "\n",
                "Your current balance is: " ++ String.mk (fmtFloat (s.Acc_balance k)) ++ "\n"]))
        ∧ (password ≠ s.Acc_password k →
            login s cnic password =
              (false, ["Enter your 4-digit password: ",
                "Incorrect password! Please create an account or re-enter correct credentials.\n"]))) := by
  have hnone : (∀ i, i < s.totalAccounts → s.Acc_num i ≠ cnic) → findAccount s cnic = -1 := by
    intro h
    exact findLoop_none s cnic s.totalAccounts 0 (fun j _ hj => h j (by omega))
  have hsome : ∀ k, k < s.totalAccounts → s.Acc_num k = cnic →
      (∀ j, j < k → s.Acc_num j ≠ cnic) → findAccount s cnic = (k : Int) := by
    intro k hk hm hf
    exact findLoop_first s cnic s.totalAccounts 0 k (Nat.zero_le k) (by omega) hm
      (fun j _ hj => hf j hj)
  refine ⟨⟨?_, ?_⟩, ?_, ?_⟩
  · intro hout i hi hm
    by_cases hf : findAccount s cnic = -1
    · have hex : ∃ k, k < s.totalAccounts ∧ s.Acc_num k = cnic ∧
          ∀ j, j < k → s.Acc_num j ≠ cnic := by
        classical
        have hP : ∃ k, k < s.totalAccounts ∧ s.Acc_num k = cnic := ⟨i, hi, hm⟩
        refine ⟨Nat.find hP, (Nat.find_spec hP).1, (Nat.find_spec hP).2, ?_⟩
        intro j hj hjm
        exact Nat.find_min hP hj ⟨lt_trans hj (Nat.find_spec hP).1, hjm⟩
      obtain ⟨k, hk, hkm, hkf⟩ := hex
      rw [hsome k hk hkm hkf] at hf
      omega
    · by_cases hp : password = s.Acc_password (findAccount s cnic).toNat
      · simp [login, hf, hp] at hout
      · simp [login, hf, hp] at hout
  · intro h
    simp [login, hnone h]
  · intro h
    exact ⟨hnone h, by simp [login, hnone h]⟩
  · intro k hk hm hf
    have hfa := hsome k hk hm hf
    have hne : ¬ ((k : Int) = -1) := by omega
    refine ⟨hfa, ?_, ?_⟩
    · intro hp
      simp [login, hfa, hne, hp]
    · intro hp
      simp [login, hfa, hne, hp]

theorem login_decides_on_first_match_witness :
    findAccount (oneAccount F32.zero) "12345" = 0
    ∧ login (oneAccount F32.zero) "12345" 4321 =
        (true, ["Enter your 4-digit password: ", "Login successful!\n",
          "Welcome Back, Ali Khan\n", "Your account number is: 12345\n",
          "Your current balance is: 0\n"])
    ∧ login (oneAccount F32.zero) "12345" 1234 =
        (false, ["Enter your 4-digit password: ",
          "Incorrect password! Please create an account or re-enter correct credentials.\n"]) := by
  have h := (login_decides_on_first_match (oneAccount F32.zero) "12345" 4321).2.2 0
    (by decide) (by decide) (by intro j hj; omega)
  have h2 := (login_decides_on_first_match (oneAccount F32.zero) "12345" 1234).2.2 0
    (by decide) (by decide) (by intro j hj; omega)
  exact ⟨h.1, (h.2.1 (by decide)).trans (by decide), h2.2.2 (by decide)⟩

/-! ## Account creation -/

theorem saveLoop_congr (s s1 : Bank) (n i : Nat) (h1 : s1.Acc_num = s.Acc_num)
    (h2 : s1.Acc_name = s.Acc_name) (h3 : s1.Acc_surname = s.Acc_surname)
    (h4 : s1.Acc_balance = s.Acc_balance) (h5 : s1.Acc_password = s.Acc_password) :
    saveLoop s1 n i = saveLoop s n i := by
  induction n generalizing i with
  | zero => rfl
  | succ n ih => simp only [saveLoop, recordLine, ih, h1, h2, h3, h4, h5]

theorem saveData_file (s : Bank) :
    (saveData s).file = some (saveLoop (saveData s) (saveData s).totalAccounts 0) :=
  congrArg some (saveLoop_congr s (saveData s) s.totalAccounts 0 rfl rfl rfl rfl rfl).symm

theorem findLoop_congr (s s1 : Bank) (cnic : String) (n i : Nat)
    (h : ∀ j, i ≤ j → j < i + n → s1.Acc_num j = s.Acc_num j) :
    findLoop s1 cnic n i = findLoop s cnic n i := by
  induction n generalizing i with
  | zero => rfl
  | succ n ih =>
    simp only [findLoop, h i (le_refl i) (by omega)]
    rw [ih (i + 1) (fun j h1 h2 => h j (by omega) (by omega))]

theorem findLoop_extend (s : Bank) (cnic : String) (n i : Nat)
    (h : findLoop s cnic n i ≠ -1) : findLoop s cnic (n + 1) i = findLoop s cnic n i := by
  induction n generalizing i with
  | zero => exact absurd rfl h
  | succ n ih =>
    by_cases h0 : s.Acc_num i = cnic
    · simp [findLoop, h0]
    · have e1 : findLoop s cnic (n + 1) i = findLoop s cnic n (i + 1) := by
        simp [findLoop, h0]
      have e2 : findLoop s cnic (n + 1 + 1) i = findLoop s cnic (n + 1) (i + 1) := by
        simp [findLoop, h0]
      rw [e1] at h
      rw [e2, e1]
      exact ih (i + 1) h

theorem passwordLoop_rejected (s : Bank) (name surname cnic : String)
    (earlier rest : List (Int × Int))
    (h : ∀ a ∈ earlier, ¬ (1000 ≤ a.1 ∧ a.1 ≤ 9999 ∧ a.1 = a.2)) :
    passwordLoop s name surname cnic (earlier ++ rest) =
      ⟨(passwordLoop s name surname cnic rest).bank,
        rejectionText earlier ++ (passwordLoop s name surname cnic rest).out,
        (passwordLoop s name surname cnic rest).returned⟩ := by
  induction earlier with
  | nil => rfl
  | cons a more ih =>
    obtain ⟨password, confirm_password⟩ := a
    have ha := h (password, confirm_password) (List.mem_cons_self _ _)
    have ih1 := ih (fun b hb => h b (List.mem_cons_of_mem _ hb))
    rw [List.cons_append]
    by_cases h1 : 1000 ≤ password ∧ password ≤ 9999
    · have h2 : ¬ (password = confirm_password) := fun hc => ha ⟨h1.1, h1.2, hc⟩
      simp only [passwordLoop, h1, h2, if_true, if_false, rejectionText, and_self]
      rw [ih1]
      simp
    · simp only [passwordLoop, h1, if_false, rejectionText]
      rw [ih1]
      simp

/-- C9: with fewer than `100` accounts stored, take any round of the
password loop of `accountCreation`, that is, a pair read after any number of
rejected pairs (`earlier`).  The round writes "Invalid password" when the
password is outside `[1000, 9999]` (whatever the confirmation) and
"Passwords do not match" when it is in range but differs from the
confirmation, the state being untouched and the loop asking again in both
cases; otherwise the call returns, whatever input follows, after filling
slot `totalAccounts` with the identifier, the names as entered, balance
`0.0` and the password, incrementing `totalAccounts`, leaving all earlier
slots as they were and rewriting the file, whether or not an earlier slot
holds the same identifier, in which case `findAccount` still returns the
earlier slot. -/
theorem accountCreation_one_attempt (s : Bank) (name surname cnic phone_number : String)
    (earlier : List (Int × Int)) (password confirm_password : Int)
    (hcap : s.totalAccounts < 100)
    (hearlier : ∀ a ∈ earlier, ¬ (1000 ≤ a.1 ∧ a.1 ≤ 9999 ∧ a.1 = a.2)) :
    ((password < 1000 ∨ 9999 < password) →
        accountCreation s name surname cnic phone_number
            (earlier ++ [(password, confirm_password)]) =
          ⟨s, ["Enter your Name (without spaces): ", "Enter your Surname (without spaces): ",
            "Enter your CNIC (without spaces): ", "Enter your Phone number (without spaces): "]
            ++ rejectionText earlier
            ++ ["Enter your 4-digit Password: ", "Confirm Password: ",
              "Invalid password! It must be a 4-digit number.\n",
              "Enter your 4-digit Password: "], false⟩)
    ∧ (1000 ≤ password → password ≤ 9999 → password ≠ confirm_password →
        accountCreation s name surname cnic phone_number
            (earlier ++ [(password, confirm_password)]) =
          ⟨s, ["Enter your Name (without spaces): ", "Enter your Surname (without spaces): ",
            "Enter your CNIC (without spaces): ", "Enter your Phone number (without spaces): "]
            ++ rejectionText earlier
            ++ ["Enter your 4-digit Password: ", "Confirm Password: ",
              "Passwords do not match!\n",
              "Enter your 4-digit Password: "], false⟩)
    ∧ (1000 ≤ password → password ≤ 9999 → password = confirm_password →
        ∀ later : List (Int × Int),
        let r := accountCreation s name surname cnic phone_number
          (earlier ++ (password, confirm_password) :: later)
        r.returned = true
        ∧ r.out =
          ["Enter your Name (without spaces): ", "Enter your Surname (without spaces): ",
            "Enter your CNIC (without spaces): ", "Enter your Phone number (without spaces): "]
            ++ rejectionText earlier
            ++ ["Enter your 4-digit Password: ", "Confirm Password: ",
              "Your account is created successfully!\n"]
        ∧ r.bank.totalAccounts = s.totalAccounts + 1
        ∧ r.bank.Acc_num s.totalAccounts = cnic
        ∧ r.bank.Acc_name s.totalAccounts = name
        ∧ r.bank.Acc_surname s.totalAccounts = surname
        ∧ r.bank.Acc_balance s.totalAccounts = F32.zero
        ∧ r.bank.Acc_password s.totalAccounts = password
        ∧ (∀ i, i < s.totalAccounts →
            r.bank.Acc_num i = s.Acc_num i ∧ r.bank.Acc_name i = s.Acc_name i
            ∧ r.bank.Acc_surname i = s.Acc_surname i ∧ r.bank.Acc_balance i = s.Acc_balance i
            ∧ r.bank.Acc_password i = s.Acc_password i)
        ∧ r.bank.file = some (saveLoop r.bank r.bank.totalAccounts 0)
        ∧ (findAccount s cnic ≠ -1 → findAccount r.bank cnic = findAccount s cnic)) := by
  have hc : ¬ (100 ≤ s.totalAccounts) := by omega
  refine ⟨?_, ?_, ?_⟩
  · intro h
    have h1 : ¬ (1000 ≤ password ∧ password ≤ 9999) := by omega
    simp [accountCreation, hc,
      passwordLoop_rejected s name surname cnic earlier _ hearlier, passwordLoop, h1]
  · intro h1 h2 h3
    have h4 : 1000 ≤ password ∧ password ≤ 9999 := ⟨h1, h2⟩
    simp [accountCreation, hc,
      passwordLoop_rejected s name surname cnic earlier _ hearlier, passwordLoop, h4, h3]
  · intro h1 h2 h3 later
    subst h3
    have h4 : 1000 ≤ password ∧ password ≤ 9999 := ⟨h1, h2⟩
    have hr : accountCreation s name surname cnic phone_number
        (earlier ++ (password, password) :: later) =
        ⟨saveData { s with
            Acc_num := Function.update s.Acc_num s.totalAccounts cnic
            Acc_name := Function.update s.Acc_name s.totalAccounts name
            Acc_surname := Function.update s.Acc_surname s.totalAccounts surname
            Acc_balance := Function.update s.Acc_balance s.totalAccounts F32.zero
            Acc_password := Function.update s.Acc_password s.totalAccounts password
            totalAccounts := s.totalAccounts + 1 },
          ["Enter your Name (without spaces): ", "Enter your Surname (without spaces): ",
            "Enter your CNIC (without spaces): ", "Enter your Phone number (without spaces): "]
            ++ rejectionText earlier
            ++ ["Enter your 4-digit Password: ", "Confirm Password: ",
              "Your account is created successfully!\n"], true⟩ := by
      simp [accountCreation, hc,
        passwordLoop_rejected s name surname cnic earlier _ hearlier, passwordLoop, h4]
    intro r
    have hr1 : r = _ := hr
    rw [hr1]
    refine ⟨rfl, rfl, rfl, ?_, ?_, ?_, ?_, ?_, ?_, ?_, ?_⟩
    · simp [saveData]
    · simp [saveData]
    · simp [saveData]
    · simp [saveData]
    · simp [saveData]
    · intro i hi
      have hne : i ≠ s.totalAccounts := by omega
      simp [saveData, Function.update_noteq hne]
    · exact saveData_file _
    · intro hf
      have hcongr := findLoop_congr s
        (saveData { s with
            Acc_num := Function.update s.Acc_num s.totalAccounts cnic
            Acc_name := Function.update s.Acc_name s.totalAccounts name
            Acc_surname := Function.update s.Acc_surname s.totalAccounts surname
            Acc_balance := Function.update s.Acc_balance s.totalAccounts F32.zero
            Acc_password := Function.update s.Acc_password s.totalAccounts password
            totalAccounts := s.totalAccounts + 1 }) cnic s.totalAccounts 0
          (fun j _ hj => by
            have hne : j ≠ s.totalAccounts := by omega
            simp [saveData, Function.update_noteq hne])
      have hext := findLoop_extend
        (saveData { s with
            Acc_num := Function.update s.Acc_num s.totalAccounts cnic
            Acc_name := Function.update s.Acc_name s.totalAccounts name
            Acc_surname := Function.update s.Acc_surname s.totalAccounts surname
            Acc_balance := Function.update s.Acc_balance s.totalAccounts F32.zero
            Acc_password := Function.update s.Acc_password s.totalAccounts password
            totalAccounts := s.totalAccounts + 1 }) cnic s.totalAccounts 0
          (by rw [hcongr]; exact hf)
      show findLoop _ cnic (s.totalAccounts + 1) 0 = findLoop s cnic s.totalAccounts 0
      rw [hext, hcongr]

/-- C9 at work: on the store of the scenario, a call whose first two pairs
are rejected and whose third is accepted appends a second account `12345`
with the names as entered, and lookup still finds slot `0`; a call whose
only pair is rejected leaves the store as it was. -/
theorem accountCreation_one_attempt_witness :
    (accountCreation (oneAccount F32.zero) "Sara" "Malik" "12345" "0300"
        [(123, 123), (4321, 4322), (4321, 4321), (1, 1)]).returned = true
    ∧ (accountCreation (oneAccount F32.zero) "Sara" "Malik" "12345" "0300"
        [(123, 123), (4321, 4322), (4321, 4321), (1, 1)]).out =
        ["Enter your Name (without spaces): ", "Enter your Surname (without spaces): ",
          "Enter your CNIC (without spaces): ", "Enter your Phone number (without spaces): ",
          "Enter your 4-digit Password: ", "Confirm Password: ",
          "Invalid password! It must be a 4-digit number.\n",
          "Enter your 4-digit Password: ", "Confirm Password: ",
          "Passwords do not match!\n",
          "Enter your 4-digit Password: ", "Confirm Password: ",
          "Your account is created successfully!\n"]
    ∧ (accountCreation (oneAccount F32.zero) "Sara" "Malik" "12345" "0300"
        [(123, 123), (4321, 4322), (4321, 4321), (1, 1)]).bank.totalAccounts = 2
    ∧ (accountCreation (oneAccount F32.zero) "Sara" "Malik" "12345" "0300"
        [(123, 123), (4321, 4322), (4321, 4321), (1, 1)]).bank.Acc_name 1 = "Sara"
    ∧ (accountCreation (oneAccount F32.zero) "Sara" "Malik" "12345" "0300"
        [(123, 123), (4321, 4322), (4321, 4321), (1, 1)]).bank.Acc_surname 1 = "Malik"
    ∧ findAccount (accountCreation (oneAccount F32.zero) "Sara" "Malik" "12345" "0300"
        [(123, 123), (4321, 4322), (4321, 4321), (1, 1)]).bank "12345" = 0
    ∧ accountCreation (oneAccount F32.zero) "Sara" "Malik" "12345" "0300" [(123, 123)] =
        ⟨oneAccount F32.zero,
          ["Enter your Name (without spaces): ", "Enter your Surname (without spaces): ",
            "Enter your CNIC (without spaces): ", "Enter your Phone number (without spaces): ",
            "Enter your 4-digit Password: ", "Confirm Password: ",
            "Invalid password! It must be a 4-digit number.\n",
            "Enter your 4-digit Password: "], false⟩
    ∧ accountCreation (oneAccount F32.zero) "Sara" "Malik" "12345" "0300" [(4321, 4322)] =
        ⟨oneAccount F32.zero,
          ["Enter your Name (without spaces): ", "Enter your Surname (without spaces): ",
            "Enter your CNIC (without spaces): ", "Enter your Phone number (without spaces): ",
            "Enter your 4-digit Password: ", "Confirm Password: ",
            "Passwords do not match!\n",
            "Enter your 4-digit Password: "], false⟩ := by
  have h := (accountCreation_one_attempt (oneAccount F32.zero) "Sara" "Malik" "12345" "0300"
    [(123, 123), (4321, 4322)] 4321 4321 (by decide) (by decide)).2.2
      (by decide) (by decide) rfl [(1, 1)]
  have hf : findAccount (oneAccount F32.zero) "12345" = 0 := by decide
  obtain ⟨h1, h2, h3, _, h5, h6, _, _, _, _, h11⟩ := h
  refine ⟨h1, h2, h3, h5, h6, ?_, ?_, ?_⟩
  · exact (h11 (by rw [hf]; decide)).trans hf
  · exact (accountCreation_one_attempt (oneAccount F32.zero) "Sara" "Malik" "12345" "0300"
      [] 123 123 (by decide) (by decide)).1 (by decide)
  · exact (accountCreation_one_attempt (oneAccount F32.zero) "Sara" "Malik" "12345" "0300"
      [] 4321 4322 (by decide) (by decide)).2.1 (by decide) (by decide) (by decide)

/-! ## Capacity -/

theorem passwordLoop_returned (s : Bank) (name surname cnic : String)
    (attempts : List (Int × Int))
    (h : (passwordLoop s name surname cnic attempts).returned = true) :
    (passwordLoop s name surname cnic attempts).bank.totalAccounts = s.totalAccounts + 1 := by
  induction attempts with
  | nil => simp [passwordLoop] at h
  | cons a more ih =>
    obtain ⟨password, confirm_password⟩ := a
    by_cases h1 : 1000 ≤ password ∧ password ≤ 9999
    · by_cases h2 : password = confirm_password
      · subst h2
        simp [passwordLoop, h1, saveData]
      · simp only [passwordLoop, h1, h2, if_true, if_false] at h ⊢
        exact ih h
    · simp only [passwordLoop, h1, if_false] at h ⊢
      exact ih h

theorem accountCreation_created (s : Bank) (i : CreationInput)
    (h : (accountCreation s i.name i.surname i.cnic i.phone_number i.attempts).created = true) :
    (accountCreation s i.name i.surname i.cnic i.phone_number i.attempts).bank.totalAccounts
      = s.totalAccounts + 1 := by
  by_cases hc : 100 ≤ s.totalAccounts
  · simp [accountCreation, hc, Creation.created] at h
  · simp only [accountCreation, hc, if_false, Creation.created, Bool.and_eq_true] at h ⊢
    exact passwordLoop_returned s i.name i.surname i.cnic i.attempts h.1

theorem createAll_total (inputs : List CreationInput) (s0 s : Bank)
    (h : createAll s0 inputs = some s) :
    s.totalAccounts = s0.totalAccounts + inputs.length := by
  induction inputs generalizing s0 with
  | nil =>
    simp only [createAll, Option.some.injEq] at h
    subst h
    simp
  | cons i more ih =>
    by_cases hc :
        (accountCreation s0 i.name i.surname i.cnic i.phone_number i.attempts).created = true
    · simp only [createAll, hc, if_true] at h
      rw [ih _ h, accountCreation_created s0 i hc, List.length_cons]
      omega
    · simp [createAll, hc] at h

/-- C6: starting from a store without accounts, once `100` calls of
`accountCreation` have each created an account, the store holds `100`
accounts and a further call, whatever its console input, writes "Cannot
create more accounts, limit reached!" and returns with the globals and the
data file exactly as they were. -/
theorem accountCreation_full (s0 : Bank) (h0 : s0.totalAccounts = 0)
    (inputs : List CreationInput) (hlen : inputs.length = 100)
    (s : Bank) (hrun : createAll s0 inputs = some s)
    (name surname cnic phone_number : String) (attempts : List (Int × Int)) :
    s.totalAccounts = 100
    ∧ accountCreation s name surname cnic phone_number attempts =
        ⟨s, ["Cannot create more accounts, limit reached!\n"], true⟩ := by
  have ht : s.totalAccounts = 100 := by
    rw [createAll_total inputs s0 s hrun, h0, hlen]
  have hc : 100 ≤ s.totalAccounts := by omega
  exact ⟨ht, by simp [accountCreation, hc]⟩

theorem accountCreation_full_witness :
    ∃ s, createAll (Bank.start none)
        (List.replicate 100 ⟨"Ali", "Khan", "12345", "0300", [(123, 123), (4321, 4321)]⟩) = some s
      ∧ s.totalAccounts = 100
      ∧ accountCreation s "Sara" "Malik" "67890" "0301" [(1111, 1111)] =
          ⟨s, ["Cannot create more accounts, limit reached!\n"], true⟩ := by
  have hsome : (createAll (Bank.start none)
      (List.replicate 100
        ⟨"Ali", "Khan", "12345", "0300", [(123, 123), (4321, 4321)]⟩)).isSome = true := by
    decide
  obtain ⟨s, hs⟩ := Option.isSome_iff_exists.1 hsome
  exact ⟨s, hs, accountCreation_full (Bank.start none) rfl _ (by decide) s hs
    "Sara" "Malik" "67890" "0301" [(1111, 1111)]⟩

/-! ## Exact cases of binary32 arithmetic -/

namespace F32

theorem log2Loop_bounds (fuel n : Nat) (hf : n ≤ fuel) (hn : n ≠ 0) :
    2 ^ log2Loop fuel n ≤ n ∧ n < 2 ^ (log2Loop fuel n + 1) := by
  induction fuel generalizing n with
  | zero => omega
  | succ fuel ih =>
    by_cases h2 : n < 2
    · have h1 : n = 1 := by omega
      subst h1
      simp [log2Loop]
    · have hd : n / 2 ≤ fuel := by omega
      have hd0 : n / 2 ≠ 0 := by omega
      obtain ⟨ih1, ih2⟩ := ih (n / 2) hd hd0
      simp only [log2Loop, h2, if_false]
      constructor
      · rw [pow_succ]; omega
      · rw [pow_succ]; omega

theorem log2_bounds (n : Nat) (hn : n ≠ 0) : 2 ^ log2 n ≤ n ∧ n < 2 ^ (log2 n + 1) :=
  log2Loop_bounds n n (le_refl n) hn

theorem log2_unique (n a : Nat) (h1 : 2 ^ a ≤ n) (h2 : n < 2 ^ (a + 1)) : log2 n = a := by
  have hn : n ≠ 0 := by
    have : 0 < 2 ^ a := Nat.two_pow_pos _
    omega
  obtain ⟨h3, h4⟩ := log2_bounds n hn
  have h5 : log2 n < a + 1 := by
    by_contra hc
    have : 2 ^ (a + 1) ≤ 2 ^ log2 n := Nat.pow_le_pow_right (by decide) (by omega)
    omega
  have h6 : a < log2 n + 1 := by
    by_contra hc
    have : 2 ^ (log2 n + 1) ≤ 2 ^ a := Nat.pow_le_pow_right (by decide) (by omega)
    omega
  omega

theorem log2_mul_pow (n d : Nat) (hn : n ≠ 0) : log2 (n * 2 ^ d) = log2 n + d := by
  obtain ⟨h3, h4⟩ := log2_bounds n hn
  apply log2_unique
  · rw [pow_add]; exact Nat.mul_le_mul_right _ h3
  · have : 2 ^ (log2 n + d + 1) = 2 ^ (log2 n + 1) * 2 ^ d := by ring
    rw [this]
    exact Nat.mul_lt_mul_of_pos_right h4 (Nat.two_pow_pos _)

/-- Turning an equality of dyadic rationals into one of naturals. -/
theorem dyadic_eq (k m : Nat) (g e : Int) (h : (k : ℚ) * (2 : ℚ) ^ g = (m : ℚ) * (2 : ℚ) ^ e) :
    (e ≤ g → k * 2 ^ (g - e).toNat = m) ∧ (g < e → k = m * 2 ^ (e - g).toNat) := by
  have h2 : (2 : ℚ) ≠ 0 := by norm_num
  constructor
  · intro hle
    have hg : g = (g - e) + e := by ring
    rw [hg, zpow_add₀ h2, ← mul_assoc] at h
    have h3 := mul_right_cancel₀ (zpow_ne_zero e h2) h
    have h4 : ((g - e).toNat : Int) = g - e := Int.toNat_of_nonneg (by omega)
    rw [← h4, zpow_natCast] at h3
    exact_mod_cast h3
  · intro hlt
    have hg : e = (e - g) + g := by ring
    rw [hg, zpow_add₀ h2, ← mul_assoc] at h
    have h3 := mul_right_cancel₀ (zpow_ne_zero g h2) h
    have h4 : ((e - g).toNat : Int) = e - g := Int.toNat_of_nonneg (by omega)
    rw [← h4, zpow_natCast] at h3
    exact_mod_cast h3

theorem roundHalfEven_mul (m d : Nat) (hd : 0 < d) : roundHalfEven (m * d) d = m := by
  have h1 : m * d / d = m := Nat.mul_div_cancel m hd
  have h2 : m * d % d = 0 := Nat.mul_mod_left m d
  simp only [roundHalfEven, h1, h2]
  have : ¬ (d < 2 * 0 ∨ 2 * 0 = d ∧ m % 2 = 1) := by omega
  rw [if_neg this]

/-- Rounding is the identity on the numbers that binary32 holds. -/
theorem round_exact (neg : Bool) (k : Nat) (g : Int) (m : Nat) (e : Int) (hk : k ≠ 0)
    (hc : Canonical (fin neg m e))
    (hv : (k : ℚ) * (2 : ℚ) ^ g = (m : ℚ) * (2 : ℚ) ^ e) :
    round neg k g = fin neg m e := by
  obtain ⟨hm24, he1, he2, hnorm⟩ := hc
  obtain ⟨hA, hB⟩ := dyadic_eq k m g e hv
  have hm0 : m ≠ 0 := by
    intro h0
    subst h0
    have h2 : (2 : ℚ) ≠ 0 := by norm_num
    simp only [Nat.cast_zero, zero_mul, mul_eq_zero, Nat.cast_eq_zero] at hv
    rcases hv with h | h
    · exact hk h
    · exact zpow_ne_zero g h2 h
  -- the leading bits sit at the same place
  have hpos : g + (log2 k : Int) = e + (log2 m : Int) := by
    by_cases hle : e ≤ g
    · have h1 := hA hle
      have h2 := log2_mul_pow k (g - e).toNat hk
      rw [h1] at h2
      rw [h2]
      push_cast
      rw [Int.toNat_of_nonneg (by omega)]
      ring
    · have h1 := hB (by omega)
      have h2 := log2_mul_pow m (e - g).toNat hm0
      rw [← h1] at h2
      rw [h2]
      push_cast
      rw [Int.toNat_of_nonneg (by omega)]
      ring
  have ht : max (g + (log2 k : Int) - 23) (-149) = e := by
    rw [hpos]
    by_cases hm23 : 2 ^ 23 ≤ m
    · have := log2_unique m 23 hm23 hm24
      rw [this]
      omega
    · have hl : log2 m < 23 := by
        by_contra hc
        have h3 := (log2_bounds m hm0).1
        have : 2 ^ 23 ≤ 2 ^ log2 m := Nat.pow_le_pow_right (by decide) (by omega)
        omega
      rcases hnorm with h | h
      · omega
      · omega
  have hpack : pack neg m e = fin neg m e := by
    have : ¬ (104 < e) := by omega
    simp [pack, this]
  unfold round
  simp only [hk, if_false, ht]
  by_cases hle : e ≤ g
  · simp only [hle, if_true, hA hle, hpack]
  · have hlt : g < e := by omega
    have hk2 := hB hlt
    simp only [hle, if_false]
    rw [hk2, roundHalfEven_mul m _ (Nat.two_pow_pos _)]
    have : ¬ (m = 2 ^ 24) := by omega
    simp only [this, if_false, hpack]


theorem toRat_fin (neg : Bool) (m : Nat) (e : Int) :
    toRat (fin neg m e) = ((signed neg m : Int) : ℚ) * (2 : ℚ) ^ e := by
  cases neg <;> simp [toRat, signed]

theorem signed_mul (neg : Bool) (m k : Nat) : signed neg (m * k) = signed neg m * (k : Int) := by
  cases neg <;> simp [signed]

theorem pow_shift (e g : Int) (h : g ≤ e) :
    (((2 ^ (e - g).toNat : Nat) : Int) : ℚ) * (2 : ℚ) ^ g = (2 : ℚ) ^ e := by
  have h2 : (2 : ℚ) ≠ 0 := by norm_num
  have h4 : ((e - g).toNat : Int) = e - g := Int.toNat_of_nonneg (by omega)
  have he : e = (e - g) + g := by ring
  conv_rhs => rw [he, zpow_add₀ h2, ← h4, zpow_natCast]
  push_cast
  rfl

/-- The integer that `add` rounds, scaled by the common exponent, is the
exact sum. -/
theorem add_aligned (a : Bool) (m : Nat) (e : Int) (b : Bool) (n : Nat) (f : Int) :
    ((signed a (m * 2 ^ (e - min e f).toNat) + signed b (n * 2 ^ (f - min e f).toNat) : Int) : ℚ)
        * (2 : ℚ) ^ (min e f)
      = toRat (fin a m e) + toRat (fin b n f) := by
  rw [toRat_fin, toRat_fin, signed_mul, signed_mul]
  push_cast
  have h1 := pow_shift e (min e f) (min_le_left e f)
  have h2 := pow_shift f (min e f) (min_le_right e f)
  push_cast at h1 h2
  rw [add_mul, mul_assoc, mul_assoc, h1, h2]

theorem add_exact (x y v : F32) (hx : x.isFinite = true) (hy : y.isFinite = true)
    (hc : Canonical v) (hvf : v.isFinite = true) (hval : toRat v = toRat x + toRat y) :
    (add x y).isFinite = true ∧ toRat (add x y) = toRat x + toRat y := by
  cases x with
  | nan => simp [isFinite] at hx
  | inf a => simp [isFinite] at hx
  | fin a m e =>
    cases y with
    | nan => simp [isFinite] at hy
    | inf b => simp [isFinite] at hy
    | fin b n f =>
      cases v with
      | nan => simp [isFinite] at hvf
      | inf c => simp [isFinite] at hvf
      | fin c k t =>
        have hal := add_aligned a m e b n f
        rw [← hval] at hal
        rw [← hval]
        generalize hz : signed a (m * 2 ^ (e - min e f).toNat)
          + signed b (n * 2 ^ (f - min e f).toNat) = z at hal
        have hadd : add (fin a m e) (fin b n f)
            = if z = 0 then fin (a && b) 0 (-149) else round (decide (z < 0)) z.natAbs (min e f) := by
          simp only [add, hz]
        rw [hadd]
        have hP : (0 : ℚ) < (2 : ℚ) ^ t := zpow_pos (by norm_num) t
        have hQ : (0 : ℚ) < (2 : ℚ) ^ (min e f) := zpow_pos (by norm_num) _
        by_cases hz0 : z = 0
        · subst hz0
          simp only [if_true, isFinite, true_and]
          rw [← hal]
          simp [toRat]
        · simp only [hz0, if_false]
          rw [toRat_fin] at hal
          have key : round (decide (z < 0)) z.natAbs (min e f) = fin c k t := by
            cases c with
            | false =>
              have hzpos : 0 < z := by
                have h1 : (0 : ℚ) ≤ (z : ℚ) * (2 : ℚ) ^ (min e f) := by
                  rw [hal]
                  simp only [signed, Bool.false_eq_true, if_false]
                  positivity
                have h2 : (0 : ℚ) ≤ (z : ℚ) := nonneg_of_mul_nonneg_left h1 hQ
                have h3 : (0 : Int) ≤ z := by exact_mod_cast h2
                omega
              have hd : decide (z < 0) = false := by simp; omega
              rw [hd]
              apply round_exact false z.natAbs (min e f) k t (by omega) hc
              have hcast : ((z.natAbs : Nat) : ℚ) = (z : ℚ) := by
                rw [Nat.cast_natAbs, abs_of_pos hzpos]
              rw [hcast, hal]
              simp [signed]
            | true =>
              have hzneg : z < 0 := by
                have h1 : (z : ℚ) * (2 : ℚ) ^ (min e f) ≤ 0 := by
                  rw [hal]
                  simp only [signed, if_true]
                  have : (0 : ℚ) ≤ (k : ℚ) * (2 : ℚ) ^ t := by positivity
                  push_cast
                  linarith
                have h2 : (z : ℚ) ≤ 0 := by
                  by_contra hcon
                  push_neg at hcon
                  have := mul_pos hcon hQ
                  linarith
                have h3 : z ≤ 0 := by exact_mod_cast h2
                omega
              have hd : decide (z < 0) = true := by simp; omega
              rw [hd]
              apply round_exact true z.natAbs (min e f) k t (by omega) hc
              have hcast : ((z.natAbs : Nat) : ℚ) = -(z : ℚ) := by
                rw [Nat.cast_natAbs, abs_of_neg hzneg]
                push_cast
                rfl
              rw [hcast]
              have : (z : ℚ) * (2 : ℚ) ^ (min e f) = -((k : ℚ) * (2 : ℚ) ^ t) := by
                rw [hal]
                simp [signed]
              linarith
          rw [key]
          exact ⟨rfl, rfl⟩

theorem neg_isFinite (x : F32) : (neg x).isFinite = x.isFinite := by
  cases x <;> rfl

theorem neg_toRat (x : F32) : toRat (neg x) = -toRat x := by
  cases x with
  | nan => simp [neg, toRat]
  | inf a => simp [neg, toRat]
  | fin a m e => cases a <;> simp [neg, toRat]

theorem sub_exact (x y v : F32) (hx : x.isFinite = true) (hy : y.isFinite = true)
    (hc : Canonical v) (hvf : v.isFinite = true) (hval : toRat v = toRat x - toRat y) :
    (sub x y).isFinite = true ∧ toRat (sub x y) = toRat x - toRat y := by
  have h := add_exact x (neg y) v hx (by rw [neg_isFinite]; exact hy) hc hvf
    (by rw [neg_toRat, hval]; ring)
  rw [neg_toRat] at h
  exact ⟨h.1, by rw [sub, h.2]; ring⟩

/-- Integers up to `2^24` convert to `float` without rounding. -/
theorem ofInt_exact (a : Int) (h0 : 0 < a) (h1 : a ≤ 2 ^ 24) :
    ∃ m e, ofInt a = fin false m e ∧ m ≠ 0 ∧ toRat (ofInt a) = (a : ℚ) := by
  have hd : decide (a < 0) = false := by simp; omega
  have hn0 : a.natAbs ≠ 0 := by omega
  have hcast : ((a.natAbs : Nat) : ℚ) = (a : ℚ) := by
    rw [Nat.cast_natAbs, abs_of_pos h0]
  obtain ⟨hl1, hl2⟩ := log2_bounds a.natAbs hn0
  by_cases h24 : a = 2 ^ 24
  · subst h24
    refine ⟨2 ^ 23, 1, by decide, by decide, ?_⟩
    have : ofInt (2 ^ 24) = fin false (2 ^ 23) 1 := by decide
    rw [this]
    norm_num [toRat]
  · have hlt : a.natAbs < 2 ^ 24 := by omega
    have hL : log2 a.natAbs ≤ 23 := by
      by_contra hc
      have : 2 ^ 24 ≤ 2 ^ log2 a.natAbs := Nat.pow_le_pow_right (by decide) (by omega)
      omega
    have hsplit : 2 ^ (log2 a.natAbs + 1) * 2 ^ (23 - log2 a.natAbs) = 2 ^ 24 := by
      rw [← pow_add]
      congr 1
      omega
    have hsplit2 : 2 ^ (log2 a.natAbs) * 2 ^ (23 - log2 a.natAbs) = 2 ^ 23 := by
      rw [← pow_add]
      congr 1
      omega
    have hpos : 0 < 2 ^ (23 - log2 a.natAbs) := Nat.two_pow_pos _
    have hcan : Canonical (fin false (a.natAbs * 2 ^ (23 - log2 a.natAbs))
        ((log2 a.natAbs : Int) - 23)) := by
      refine ⟨?_, by omega, by omega, Or.inr ?_⟩
      · calc a.natAbs * 2 ^ (23 - log2 a.natAbs)
            < 2 ^ (log2 a.natAbs + 1) * 2 ^ (23 - log2 a.natAbs) :=
              Nat.mul_lt_mul_of_pos_right hl2 hpos
          _ = 2 ^ 24 := hsplit
      · calc 2 ^ 23 = 2 ^ (log2 a.natAbs) * 2 ^ (23 - log2 a.natAbs) := hsplit2.symm
          _ ≤ a.natAbs * 2 ^ (23 - log2 a.natAbs) := Nat.mul_le_mul_right _ hl1
    have hval : ((a.natAbs : Nat) : ℚ) * (2 : ℚ) ^ (0 : Int)
        = ((a.natAbs * 2 ^ (23 - log2 a.natAbs) : Nat) : ℚ)
          * (2 : ℚ) ^ ((log2 a.natAbs : Int) - 23) := by
      have h2 : (2 : ℚ) ≠ 0 := by norm_num
      have he : ((log2 a.natAbs : Int) - 23) = -((23 - log2 a.natAbs : Nat) : Int) := by omega
      rw [he, zpow_neg, zpow_natCast]
      push_cast
      field_simp
    have hr := round_exact false a.natAbs 0 _ _ hn0 hcan hval
    refine ⟨a.natAbs * 2 ^ (23 - log2 a.natAbs), (log2 a.natAbs : Int) - 23, ?_, ?_, ?_⟩
    · unfold ofInt
      rw [hd]
      exact hr
    · exact Nat.mul_ne_zero hn0 (by omega)
    · unfold ofInt
      rw [hd, hr]
      simp only [toRat, Bool.false_eq_true, if_false]
      rw [← hval, hcast]
      simp

theorem le_zero_fin (b : Bool) (m : Nat) (e : Int) (h : b = false ∨ m = 0) :
    le zero (fin b m e) = true := by
  rcases h with h | h
  · subst h
    simp only [le, zero, signed, Bool.false_eq_true, if_false, decide_eq_true_eq, Nat.zero_mul]
    exact_mod_cast Nat.zero_le _
  · subst h
    cases b <;> simp [le, zero, signed]

theorem le_zero_pack (m : Nat) (e : Int) : le zero (pack false m e) = true := by
  unfold pack
  split
  · rfl
  · exact le_zero_fin false m e (Or.inl rfl)

theorem le_zero_round (m : Nat) (e : Int) : le zero (round false m e) = true := by
  unfold round
  split
  · exact le_zero_fin false 0 _ (Or.inl rfl)
  · dsimp only
    split
    · exact le_zero_pack _ _
    · split
      · exact le_zero_pack _ _
      · exact le_zero_pack _ _

/-- Subtracting a positive number that is at most the minuend never gives
a negative result. -/
theorem sub_nonneg_of_le (x : F32) (m : Nat) (e : Int) (h : le (fin false m e) x = true) :
    le zero (sub x (fin false m e)) = true := by
  cases x with
  | nan => simp [le] at h
  | inf b =>
    cases b with
    | true => simp [le] at h
    | false => rfl
  | fin b n f =>
    simp only [le, decide_eq_true_eq] at h
    rw [min_comm e f] at h
    generalize hz : signed b (n * 2 ^ (f - min f e).toNat)
      + signed true (m * 2 ^ (e - min f e).toNat) = z
    have hadd : sub (fin b n f) (fin false m e)
        = if z = 0 then fin (b && true) 0 (-149) else round (decide (z < 0)) z.natAbs (min f e) := by
      simp only [sub, neg, add, hz, Bool.not_false]
    rw [hadd]
    have hz0 : 0 ≤ z := by
      rw [← hz]
      simp only [signed, if_true, Bool.false_eq_true, if_false] at h ⊢
      omega
    by_cases hzz : z = 0
    · simp only [hzz, if_true]
      exact le_zero_fin _ 0 _ (Or.inr rfl)
    · simp only [hzz, if_false]
      have hd : decide (z < 0) = false := by simp; omega
      rw [hd]
      exact le_zero_round _ _


/-- The magnitude of a finite datum. -/
theorem toRat_abs (b : Bool) (m : Nat) (e : Int) :
    toRat (fin b m e) = (if b then -1 else 1) * ((m : ℚ) * (2 : ℚ) ^ e) := by
  cases b <;> simp [toRat]

theorem pack_value (neg : Bool) (q : Nat) (t : Int) (h : (pack neg q t).isFinite = true) :
    pack neg q t = fin neg q t := by
  unfold pack at h ⊢
  split
  · rename_i h1
    simp [h1, isFinite] at h
  · rfl

/-- What `round` returns when it does not overflow: the significand `q`
obtained by scaling or by `roundHalfEven`, at the exponent `t`. -/
theorem round_value (neg : Bool) (k : Nat) (g : Int) (hk : k ≠ 0)
    (hfin : (round neg k g).isFinite = true) :
    (max (g + (log2 k : Int) - 23) (-149) ≤ g →
      toRat (round neg k g) = (if neg then -1 else 1) * ((k : ℚ) * (2 : ℚ) ^ g))
    ∧ (g < max (g + (log2 k : Int) - 23) (-149) →
      toRat (round neg k g) = (if neg then -1 else 1) *
        ((roundHalfEven k (2 ^ (max (g + (log2 k : Int) - 23) (-149) - g).toNat) : ℚ)
          * (2 : ℚ) ^ (max (g + (log2 k : Int) - 23) (-149)))) := by
  generalize ht : max (g + (log2 k : Int) - 23) (-149) = t at *
  have hr : round neg k g =
      if t ≤ g then pack neg (k * 2 ^ (g - t).toNat) t
      else if roundHalfEven k (2 ^ (t - g).toNat) = 2 ^ 24 then pack neg (2 ^ 23) (t + 1)
        else pack neg (roundHalfEven k (2 ^ (t - g).toNat)) t := by
    simp only [round, hk, if_false, ht]
  constructor
  · intro hle
    rw [hr] at hfin ⊢
    simp only [hle, if_true] at hfin ⊢
    rw [pack_value _ _ _ hfin, toRat_abs]
    congr 1
    have := pow_shift g t hle
    push_cast at this ⊢
    rw [mul_assoc, this]
  · intro hlt
    have hnle : ¬ (t ≤ g) := by omega
    rw [hr] at hfin ⊢
    simp only [hnle, if_false] at hfin ⊢
    by_cases h24 : roundHalfEven k (2 ^ (t - g).toNat) = 2 ^ 24
    · simp only [h24, if_true] at hfin ⊢
      rw [pack_value _ _ _ hfin, toRat_abs]
      congr 1
      have h2 : (2 : ℚ) ≠ 0 := by norm_num
      rw [zpow_add₀ h2]
      push_cast
      norm_num
      ring
    · simp only [h24, if_false] at hfin ⊢
      rw [pack_value _ _ _ hfin, toRat_abs]

theorem roundHalfEven_cases (k d : Nat) :
    (roundHalfEven k d = k / d ∧ 2 * (k % d) ≤ d)
    ∨ (roundHalfEven k d = k / d + 1 ∧ d ≤ 2 * (k % d)) := by
  unfold roundHalfEven
  dsimp only
  split
  · rename_i h
    right
    exact ⟨rfl, by omega⟩
  · rename_i h
    left
    exact ⟨rfl, by omega⟩

/-- A nonnegative binary32 magnitude never lies strictly between two
consecutive multiples of the unit in the last place that `round` uses. -/
theorem grid_gap (k : Nat) (g : Int) (hk : k ≠ 0) (m : Nat) (e : Int)
    (hc : Canonical (fin false m e))
    (hlt : g < max (g + (log2 k : Int) - 23) (-149)) :
    (m : ℚ) * (2 : ℚ) ^ e
        ≤ ((k / 2 ^ (max (g + (log2 k : Int) - 23) (-149) - g).toNat : Nat) : ℚ)
          * (2 : ℚ) ^ (max (g + (log2 k : Int) - 23) (-149))
    ∨ ((k / 2 ^ (max (g + (log2 k : Int) - 23) (-149) - g).toNat + 1 : Nat) : ℚ)
          * (2 : ℚ) ^ (max (g + (log2 k : Int) - 23) (-149))
        ≤ (m : ℚ) * (2 : ℚ) ^ e := by
  obtain ⟨hm24, he1, _, _⟩ := hc
  generalize ht : max (g + (log2 k : Int) - 23) (-149) = t at *
  have hT : (0 : ℚ) < (2 : ℚ) ^ t := zpow_pos (by norm_num) t
  by_cases hte : t ≤ e
  · -- the magnitude is a multiple of `2^t`
    have hm : (m : ℚ) * (2 : ℚ) ^ e = ((m * 2 ^ (e - t).toNat : Nat) : ℚ) * (2 : ℚ) ^ t := by
      have := pow_shift e t hte
      push_cast at this ⊢
      rw [mul_assoc, this]
    rw [hm]
    by_cases hM : m * 2 ^ (e - t).toNat ≤ k / 2 ^ (t - g).toNat
    · left
      exact mul_le_mul_of_nonneg_right (by exact_mod_cast hM) hT.le
    · right
      have hM1 : k / 2 ^ (t - g).toNat + 1 ≤ m * 2 ^ (e - t).toNat := by omega
      exact mul_le_mul_of_nonneg_right (by exact_mod_cast hM1) hT.le
  · -- the magnitude is below `2^23 * 2^t`, and the quotient is at least `2^23`
    left
    have htl : t = g + (log2 k : Int) - 23 := by omega
    have hs : (t - g).toNat + 23 = log2 k := by omega
    have hq : 2 ^ 23 ≤ k / 2 ^ (t - g).toNat := by
      rw [Nat.le_div_iff_mul_le (Nat.two_pow_pos _), ← pow_add, Nat.add_comm, hs]
      exact (log2_bounds k hk).1
    have h1 : (m : ℚ) * (2 : ℚ) ^ e ≤ (2 : ℚ) ^ (24 : Nat) * (2 : ℚ) ^ (t - 1) := by
      have hm' : (m : ℚ) ≤ (2 : ℚ) ^ (24 : Nat) := by exact_mod_cast hm24.le
      have he' : (2 : ℚ) ^ e ≤ (2 : ℚ) ^ (t - 1) :=
        zpow_le_zpow_right₀ (by norm_num) (by omega)
      exact mul_le_mul hm' he' (zpow_pos (by norm_num) e).le (by positivity)
    have h2 : (2 : ℚ) ^ (24 : Nat) * (2 : ℚ) ^ (t - 1) = (2 : ℚ) ^ (23 : Nat) * (2 : ℚ) ^ t := by
      have h20 : (2 : ℚ) ≠ 0 := by norm_num
      rw [zpow_sub₀ h20, zpow_one]
      ring
    have h3 : (2 : ℚ) ^ (23 : Nat) * (2 : ℚ) ^ t
        ≤ ((k / 2 ^ (t - g).toNat : Nat) : ℚ) * (2 : ℚ) ^ t :=
      mul_le_mul_of_nonneg_right (by exact_mod_cast hq) hT.le
    linarith

/-- `round` returns a binary32 number nearest to the exact value: no other
binary32 number is closer. -/
theorem round_nearest (neg : Bool) (k : Nat) (g : Int) (hk : k ≠ 0)
    (hfin : (round neg k g).isFinite = true) (v : F32) (hc : Canonical v)
    (hvf : v.isFinite = true) :
    |toRat (round neg k g) - (if neg then -1 else 1) * ((k : ℚ) * (2 : ℚ) ^ g)|
      ≤ |toRat v - (if neg then -1 else 1) * ((k : ℚ) * (2 : ℚ) ^ g)| := by
  obtain ⟨hA, hB⟩ := round_value neg k g hk hfin
  by_cases hle : max (g + (log2 k : Int) - 23) (-149) ≤ g
  · rw [hA hle, sub_self, abs_zero]
    exact abs_nonneg _
  · have hlt : g < max (g + (log2 k : Int) - 23) (-149) := by omega
    rw [hB hlt]
    cases v with
    | nan => simp [isFinite] at hvf
    | inf c => simp [isFinite] at hvf
    | fin c m e =>
      have hcan : Canonical (fin false m e) := hc
      have hgap := grid_gap k g hk m e hcan hlt
      generalize ht : max (g + (log2 k : Int) - 23) (-149) = t at *
      have hP : (0 : ℚ) < (2 : ℚ) ^ g := zpow_pos (by norm_num) g
      have hT : (0 : ℚ) < (2 : ℚ) ^ t := zpow_pos (by norm_num) t
      have hDP : ((2 ^ (t - g).toNat : Nat) : ℚ) * (2 : ℚ) ^ g = (2 : ℚ) ^ t := by
        have := pow_shift t g hlt.le
        push_cast at this ⊢
        exact this
      have hdm := Nat.div_add_mod k (2 ^ (t - g).toNat)
      have hmod := Nat.mod_lt k (Nat.two_pow_pos (t - g).toNat)
      generalize hD : 2 ^ (t - g).toNat = D at *
      generalize hq0 : k / D = q0 at *
      generalize hrem : k % D = rem at *
      -- the exact magnitude, split at the grid
      have hx : (k : ℚ) * (2 : ℚ) ^ g = (q0 : ℚ) * (2 : ℚ) ^ t + (rem : ℚ) * (2 : ℚ) ^ g := by
        have : (k : ℚ) = (D : ℚ) * (q0 : ℚ) + (rem : ℚ) := by exact_mod_cast hdm.symm
        rw [this, ← hDP]
        ring
      have hremP : (0 : ℚ) ≤ (rem : ℚ) * (2 : ℚ) ^ g := by positivity
      have hm0 : (0 : ℚ) ≤ (m : ℚ) * (2 : ℚ) ^ e := by positivity
      have hq0T : (0 : ℚ) ≤ (q0 : ℚ) * (2 : ℚ) ^ t := by positivity
      have hTsplit : (2 : ℚ) ^ t = (D : ℚ) * (2 : ℚ) ^ g := hDP.symm
      rw [toRat_abs]
      rcases roundHalfEven_cases k D with ⟨hq, hhalf⟩ | ⟨hq, hhalf⟩
      · -- rounded down
        rw [hq, hq0]
        rw [hrem] at hhalf
        have hh : 2 * ((rem : ℚ) * (2 : ℚ) ^ g) ≤ (2 : ℚ) ^ t := by
          rw [hTsplit, ← mul_assoc]
          exact mul_le_mul_of_nonneg_right (by exact_mod_cast hhalf) hP.le
        push_cast at hgap
        cases neg <;> cases c <;>
          simp only [Bool.false_eq_true, if_false, if_true] <;>
          rw [abs_le] <;> constructor <;>
          rcases hgap with hg | hg <;>
          first
            | (rw [le_abs]; left; linarith)
            | (rw [le_abs]; right; linarith)
            | (rw [neg_le, ← abs_neg]; rw [le_abs]; left; linarith)
            | (rw [neg_le, ← abs_neg]; rw [le_abs]; right; linarith)
      · -- rounded up
        rw [hq, hq0]
        rw [hrem] at hhalf
        have hh : (2 : ℚ) ^ t ≤ 2 * ((rem : ℚ) * (2 : ℚ) ^ g) := by
          rw [hTsplit, ← mul_assoc]
          exact mul_le_mul_of_nonneg_right (by exact_mod_cast hhalf) hP.le
        have hlt' : (rem : ℚ) * (2 : ℚ) ^ g ≤ (2 : ℚ) ^ t := by
          rw [hTsplit]
          exact mul_le_mul_of_nonneg_right (by exact_mod_cast hmod.le) hP.le
        push_cast at hgap ⊢
        cases neg <;> cases c <;>
          simp only [Bool.false_eq_true, if_false, if_true] <;>
          rw [abs_le] <;> constructor <;>
          rcases hgap with hg | hg <;>
          first
            | (rw [le_abs]; left; linarith)
            | (rw [le_abs]; right; linarith)
            | (rw [neg_le, ← abs_neg]; rw [le_abs]; left; linarith)
            | (rw [neg_le, ← abs_neg]; rw [le_abs]; right; linarith)


theorem add_nearest (x y v : F32) (hx : x.isFinite = true) (hy : y.isFinite = true)
    (hfin : (add x y).isFinite = true) (hc : Canonical v) (hvf : v.isFinite = true) :
    |toRat (add x y) - (toRat x + toRat y)| ≤ |toRat v - (toRat x + toRat y)| := by
  cases x with
  | nan => simp [isFinite] at hx
  | inf a => simp [isFinite] at hx
  | fin a m e =>
    cases y with
    | nan => simp [isFinite] at hy
    | inf b => simp [isFinite] at hy
    | fin b n f =>
      have hal := add_aligned a m e b n f
      rw [← hal]
      generalize hz : signed a (m * 2 ^ (e - min e f).toNat)
        + signed b (n * 2 ^ (f - min e f).toNat) = z at hal
      have hadd : add (fin a m e) (fin b n f)
          = if z = 0 then fin (a && b) 0 (-149)
            else round (decide (z < 0)) z.natAbs (min e f) := by
        simp only [add, hz]
      rw [hadd] at hfin ⊢
      by_cases hz0 : z = 0
      · subst hz0
        simp only [if_true]
        have : toRat (fin (a && b) 0 (-149)) = 0 := by simp [toRat]
        rw [this]
        simp
      · simp only [hz0, if_false] at hfin ⊢
        have hsplit : (z : ℚ) * (2 : ℚ) ^ (min e f)
            = (if decide (z < 0) = true then -1 else 1)
              * (((z.natAbs : Nat) : ℚ) * (2 : ℚ) ^ (min e f)) := by
          by_cases hneg : z < 0
          · have hd : decide (z < 0) = true := by simp; omega
            rw [hd, Nat.cast_natAbs, abs_of_neg hneg]
            push_cast
            simp
          · have hd : decide (z < 0) = false := by simp; omega
            rw [hd, Nat.cast_natAbs, abs_of_pos (by omega)]
            simp
        rw [hsplit]
        exact round_nearest (decide (z < 0)) z.natAbs (min e f) (by omega) hfin v hc hvf

theorem sub_nearest (x y v : F32) (hx : x.isFinite = true) (hy : y.isFinite = true)
    (hfin : (sub x y).isFinite = true) (hc : Canonical v) (hvf : v.isFinite = true) :
    |toRat (sub x y) - (toRat x - toRat y)| ≤ |toRat v - (toRat x - toRat y)| := by
  have h := add_nearest x (neg y) v hx (by rw [neg_isFinite]; exact hy) hfin hc hvf
  rw [neg_toRat] at h
  have e1 : toRat x - toRat y = toRat x + -toRat y := by ring
  rw [e1]
  exact h

theorem ofInt_nearest (a : Int) (v : F32) (hfin : (ofInt a).isFinite = true)
    (hc : Canonical v) (hvf : v.isFinite = true) :
    |toRat (ofInt a) - (a : ℚ)| ≤ |toRat v - (a : ℚ)| := by
  by_cases h0 : a = 0
  · subst h0
    have : toRat (ofInt 0) = 0 := by
      have : ofInt 0 = fin false 0 (-149) := by decide
      rw [this]; simp [toRat]
    rw [this]
    simp
  · have hsplit : (a : ℚ) = (if decide (a < 0) = true then -1 else 1)
        * (((a.natAbs : Nat) : ℚ) * (2 : ℚ) ^ (0 : Int)) := by
      by_cases hneg : a < 0
      · have hd : decide (a < 0) = true := by simp; omega
        rw [hd, Nat.cast_natAbs, abs_of_neg hneg]
        push_cast
        simp
      · have hd : decide (a < 0) = false := by simp; omega
        rw [hd, Nat.cast_natAbs, abs_of_pos (by omega)]
        simp
    have h := round_nearest (decide (a < 0)) a.natAbs 0 (by omega) hfin v hc hvf
    rw [← hsplit] at h
    exact h

theorem aligned_value (a : Bool) (m : Nat) (e g : Int) (h : g ≤ e) :
    ((signed a (m * 2 ^ (e - g).toNat) : Int) : ℚ) * (2 : ℚ) ^ g = toRat (fin a m e) := by
  rw [toRat_fin, signed_mul]
  have h1 := pow_shift e g h
  push_cast at h1 ⊢
  rw [mul_assoc, h1]

/-- On finite data `le` is the order of the numbers they stand for. -/
theorem le_iff_toRat (a : Bool) (m : Nat) (e : Int) (b : Bool) (n : Nat) (f : Int) :
    le (fin a m e) (fin b n f) = true ↔ toRat (fin a m e) ≤ toRat (fin b n f) := by
  have hQ : (0 : ℚ) < (2 : ℚ) ^ (min e f) := zpow_pos (by norm_num) _
  rw [← aligned_value a m e (min e f) (min_le_left e f),
    ← aligned_value b n f (min e f) (min_le_right e f)]
  simp only [le, decide_eq_true_eq]
  rw [mul_le_mul_right hQ]
  exact Int.cast_le.symm

/-- On finite data `lt` is the strict order of the numbers they stand for. -/
theorem lt_iff_toRat (a : Bool) (m : Nat) (e : Int) (b : Bool) (n : Nat) (f : Int) :
    lt (fin a m e) (fin b n f) = true ↔ toRat (fin a m e) < toRat (fin b n f) := by
  have hQ : (0 : ℚ) < (2 : ℚ) ^ (min e f) := zpow_pos (by norm_num) _
  rw [← aligned_value a m e (min e f) (min_le_left e f),
    ← aligned_value b n f (min e f) (min_le_right e f)]
  simp only [lt, decide_eq_true_eq]
  rw [mul_lt_mul_right hQ]
  exact Int.cast_lt.symm

/-- For a finite balance and an amount that converts exactly, the test
`amount <= balance` of the program is the comparison of the numbers. -/
theorem ofInt_le_iff (a : Int) (h0 : 0 < a) (h1 : a ≤ 2 ^ 24) (x : F32)
    (hx : x.isFinite = true) :
    le (ofInt a) x = true ↔ (a : ℚ) ≤ toRat x := by
  obtain ⟨m, e, hfin, _, hval⟩ := ofInt_exact a h0 h1
  cases x with
  | nan => simp [isFinite] at hx
  | inf b => simp [isFinite] at hx
  | fin b n f =>
    rw [← hval, hfin]
    exact le_iff_toRat false m e b n f

/-- For a finite balance and an amount that converts exactly, `balance <
amount` as `float`s is the comparison of the numbers. -/
theorem lt_ofInt_iff (a : Int) (h0 : 0 < a) (h1 : a ≤ 2 ^ 24) (x : F32)
    (hx : x.isFinite = true) :
    lt x (ofInt a) = true ↔ toRat x < (a : ℚ) := by
  obtain ⟨m, e, hfin, _, hval⟩ := ofInt_exact a h0 h1
  cases x with
  | nan => simp [isFinite] at hx
  | inf b => simp [isFinite] at hx
  | fin b n f =>
    rw [← hval, hfin]
    exact lt_iff_toRat b n f false m e

theorem roundHalfEven_le (k d : Nat) : roundHalfEven k d ≤ k / d + 1 := by
  rcases roundHalfEven_cases k d with ⟨h, _⟩ | ⟨h, _⟩ <;> omega

theorem roundHalfEven_ge (k d : Nat) : k / d ≤ roundHalfEven k d := by
  rcases roundHalfEven_cases k d with ⟨h, _⟩ | ⟨h, _⟩ <;> omega

theorem pack_canonical (neg : Bool) (m : Nat) (t : Int) (h1 : m < 2 ^ 24) (h2 : -149 ≤ t)
    (h3 : t = -149 ∨ 2 ^ 23 ≤ m) : Canonical (pack neg m t) := by
  unfold pack
  split
  · trivial
  · exact ⟨h1, h2, by omega, h3⟩

/-- Whatever is rounded, the result is a binary32 datum. -/
theorem round_canonical (neg : Bool) (k : Nat) (g : Int) : Canonical (round neg k g) := by
  unfold round
  by_cases hk : k = 0
  · simp only [hk, if_true]
    exact ⟨by decide, by decide, by decide, Or.inl rfl⟩
  · simp only [hk, if_false]
    obtain ⟨hl1, hl2⟩ := log2_bounds k hk
    generalize ht : max (g + (log2 k : Int) - 23) (-149) = t
    have ht1 : g + (log2 k : Int) - 23 ≤ t := by omega
    have ht2 : -149 ≤ t := by omega
    have ht3 : t = -149 ∨ t = g + (log2 k : Int) - 23 := by omega
    by_cases hle : t ≤ g
    · simp only [hle, if_true]
      apply pack_canonical _ _ _ ?_ ht2 ?_
      · have hs : (g - t).toNat + (log2 k + 1) ≤ 24 := by omega
        calc k * 2 ^ (g - t).toNat < 2 ^ (log2 k + 1) * 2 ^ (g - t).toNat :=
              Nat.mul_lt_mul_of_pos_right hl2 (Nat.two_pow_pos _)
          _ = 2 ^ ((g - t).toNat + (log2 k + 1)) := by rw [← pow_add]; congr 1; omega
          _ ≤ 2 ^ 24 := Nat.pow_le_pow_right (by decide) hs
      · rcases ht3 with h | h
        · exact Or.inl h
        · right
          have hs : log2 k + (g - t).toNat = 23 := by omega
          calc 2 ^ 23 = 2 ^ (log2 k) * 2 ^ (g - t).toNat := by rw [← pow_add, hs]
            _ ≤ k * 2 ^ (g - t).toNat := Nat.mul_le_mul_right _ hl1
    · simp only [hle, if_false]
      have hq0 : k / 2 ^ (t - g).toNat < 2 ^ 24 := by
        rw [Nat.div_lt_iff_lt_mul (Nat.two_pow_pos _)]
        have hs : log2 k + 1 ≤ 24 + (t - g).toNat := by omega
        calc k < 2 ^ (log2 k + 1) := hl2
          _ ≤ 2 ^ (24 + (t - g).toNat) := Nat.pow_le_pow_right (by decide) hs
          _ = 2 ^ 24 * 2 ^ (t - g).toNat := by rw [pow_add]
      have hq := roundHalfEven_le k (2 ^ (t - g).toNat)
      by_cases h24 : roundHalfEven k (2 ^ (t - g).toNat) = 2 ^ 24
      · simp only [h24, if_true]
        exact pack_canonical _ _ _ (by decide) (by omega) (Or.inr (le_refl _))
      · simp only [h24, if_false]
        apply pack_canonical _ _ _ (by omega) ht2 ?_
        rcases ht3 with h | h
        · exact Or.inl h
        · right
          have hs : 23 + (t - g).toNat = log2 k := by omega
          have : 2 ^ 23 ≤ k / 2 ^ (t - g).toNat := by
            rw [Nat.le_div_iff_mul_le (Nat.two_pow_pos _), ← pow_add, hs]
            exact hl1
          have := roundHalfEven_ge k (2 ^ (t - g).toNat)
          omega


/-- The largest magnitude of a finite binary32 datum is `(2^24-1) * 2^104`. -/
theorem canonical_bound (x : F32) (hc : Canonical x) (hf : x.isFinite = true) :
    |toRat x| ≤ (2 ^ 24 - 1) * (2 : ℚ) ^ (104 : Int) := by
  cases x with
  | nan => simp [isFinite] at hf
  | inf a => simp [isFinite] at hf
  | fin a m e =>
    obtain ⟨h1, _, h3, _⟩ := hc
    rw [toRat_abs, abs_mul]
    have hs : |(if a = true then (-1 : ℚ) else 1)| = 1 := by cases a <;> simp
    rw [hs, one_mul, abs_of_nonneg (by positivity)]
    have hm : (m : ℚ) ≤ 2 ^ 24 - 1 := by
      have h5 : m + 1 ≤ 2 ^ 24 := h1
      have h6 : ((m + 1 : Nat) : ℚ) ≤ ((2 ^ 24 : Nat) : ℚ) := Nat.cast_le.2 h5
      push_cast at h6
      linarith
    have he : (2 : ℚ) ^ e ≤ (2 : ℚ) ^ (104 : Int) := zpow_le_zpow_right₀ (by norm_num) h3
    exact mul_le_mul hm he (zpow_pos (by norm_num) e).le (by norm_num)

/-- Rounding does not overflow below the midpoint between the largest
finite value and `2^128`. -/
theorem round_finite (neg : Bool) (k : Nat) (g : Int)
    (h : 2 * ((k : ℚ) * (2 : ℚ) ^ g) < (2 ^ 25 - 1) * (2 : ℚ) ^ (104 : Int)) :
    (round neg k g).isFinite = true := by
  unfold round
  by_cases hk : k = 0
  · simp [hk, isFinite]
  · simp only [hk, if_false]
    obtain ⟨hl1, hl2⟩ := log2_bounds k hk
    have h2 : (2 : ℚ) ≠ 0 := by norm_num
    have hP : (0 : ℚ) < (2 : ℚ) ^ g := zpow_pos (by norm_num) g
    -- the leading bit is below `2^128`
    have hL : g + (log2 k : Int) < 128 := by
      by_contra hc
      have h1 : (2 : ℚ) ^ (128 : Int) ≤ (2 : ℚ) ^ (g + (log2 k : Int)) :=
        zpow_le_zpow_right₀ (by norm_num) (by omega)
      have h3 : (2 : ℚ) ^ (g + (log2 k : Int)) ≤ (k : ℚ) * (2 : ℚ) ^ g := by
        rw [zpow_add₀ h2, zpow_natCast, mul_comm]
        exact mul_le_mul_of_nonneg_right (by exact_mod_cast hl1) hP.le
      have h4 : (2 ^ 25 - 1) * (2 : ℚ) ^ (104 : Int) < 2 * (2 : ℚ) ^ (128 : Int) := by
        norm_num
      linarith
    generalize ht : max (g + (log2 k : Int) - 23) (-149) = t
    have ht4 : t ≤ 104 := by omega
    have pk : ∀ m : Nat, pack neg m t = fin neg m t := by
      intro m
      have : ¬ (104 < t) := by omega
      simp [pack, this]
    by_cases hle : t ≤ g
    · simp only [hle, if_true, pk, isFinite]
    · simp only [hle, if_false]
      by_cases h24 : roundHalfEven k (2 ^ (t - g).toNat) = 2 ^ 24
      · simp only [h24, if_true]
        have ht5 : t ≤ 103 := by
          by_contra hc
          have ht6 : t = 104 := by omega
          have hDP : ((2 ^ (t - g).toNat : Nat) : ℚ) * (2 : ℚ) ^ g = (2 : ℚ) ^ t := by
            have := pow_shift t g (by omega)
            push_cast at this ⊢
            exact this
          have hdm := Nat.div_add_mod k (2 ^ (t - g).toNat)
          have hq0 : k / 2 ^ (t - g).toNat < 2 ^ 24 := by
            rw [Nat.div_lt_iff_lt_mul (Nat.two_pow_pos _)]
            have hs : log2 k + 1 ≤ 24 + (t - g).toNat := by omega
            calc k < 2 ^ (log2 k + 1) := hl2
              _ ≤ 2 ^ (24 + (t - g).toNat) := Nat.pow_le_pow_right (by decide) hs
              _ = 2 ^ 24 * 2 ^ (t - g).toNat := by rw [pow_add]
          generalize hD : 2 ^ (t - g).toNat = D at *
          have h2k : (2 ^ 25 - 1) * D ≤ 2 * k := by
            rcases roundHalfEven_cases k D with ⟨hq, hh⟩ | ⟨hq, hh⟩
            · omega
            · have hq1 : k / D = 2 ^ 24 - 1 := by omega
              rw [hq1] at hdm
              have : (2 ^ 25 - 1) * D = 2 * (D * (2 ^ 24 - 1)) + D := by
                norm_num
                ring
              omega
          have h2kq : ((2 ^ 25 - 1 : Nat) : ℚ) * (D : ℚ) ≤ 2 * (k : ℚ) := by
            exact_mod_cast h2k
          have : (2 ^ 25 - 1) * (2 : ℚ) ^ (104 : Int) ≤ 2 * ((k : ℚ) * (2 : ℚ) ^ g) := by
            rw [← ht6, ← hDP]
            have := mul_le_mul_of_nonneg_right h2kq hP.le
            push_cast at this
            linarith
          linarith
        have : ¬ (104 < t + 1) := by omega
        simp [pack, this, isFinite]
      · simp only [h24, if_false, pk, isFinite]

set_option maxHeartbeats 1600000 in
/-- Ties go to the even significand: when another binary32 number is as
close to the exact value as the result of `round`, the significand of the
result is even. -/
theorem round_tie_even (neg : Bool) (k : Nat) (g : Int) (hk : k ≠ 0)
    (hfin : (round neg k g).isFinite = true) (v : F32) (hc : Canonical v)
    (hvf : v.isFinite = true)
    (hd : |toRat v - (if neg then -1 else 1) * ((k : ℚ) * (2 : ℚ) ^ g)|
      = |toRat (round neg k g) - (if neg then -1 else 1) * ((k : ℚ) * (2 : ℚ) ^ g)|)
    (hne : toRat v ≠ toRat (round neg k g)) :
    (round neg k g).significand % 2 = 0 := by
  obtain ⟨hA, hB⟩ := round_value neg k g hk hfin
  by_cases hle : max (g + (log2 k : Int) - 23) (-149) ≤ g
  · exfalso
    rw [hA hle, sub_self, abs_zero, abs_eq_zero, sub_eq_zero] at hd
    exact hne (by rw [hd, hA hle])
  · have hlt : g < max (g + (log2 k : Int) - 23) (-149) := by omega
    have hBv := hB hlt
    have hsig : (round neg k g).significand % 2 = 0
        ∨ (round neg k g).significand
          = roundHalfEven k (2 ^ (max (g + (log2 k : Int) - 23) (-149) - g).toNat) := by
      have hr : round neg k g =
          if roundHalfEven k (2 ^ (max (g + (log2 k : Int) - 23) (-149) - g).toNat) = 2 ^ 24
          then pack neg (2 ^ 23) (max (g + (log2 k : Int) - 23) (-149) + 1)
          else pack neg (roundHalfEven k
            (2 ^ (max (g + (log2 k : Int) - 23) (-149) - g).toNat))
            (max (g + (log2 k : Int) - 23) (-149)) := by
        simp only [round, hk, if_false, hle]
      rw [hr] at hfin ⊢
      split
      · rename_i h24
        simp only [h24, if_true] at hfin
        left
        rw [pack_value _ _ _ hfin]
        show 2 ^ 23 % 2 = 0
        norm_num
      · rename_i h24
        simp only [h24, if_false] at hfin
        right
        rw [pack_value _ _ _ hfin]
        rfl
    rcases hsig with hsig | hsig
    · exact hsig
    rw [hsig]
    rw [hBv] at hd hne
    cases v with
    | nan => simp [isFinite] at hvf
    | inf c => simp [isFinite] at hvf
    | fin c m e =>
      have hcan : Canonical (fin false m e) := hc
      have hgap := grid_gap k g hk m e hcan hlt
      generalize ht : max (g + (log2 k : Int) - 23) (-149) = t at *
      have hP : (0 : ℚ) < (2 : ℚ) ^ g := zpow_pos (by norm_num) g
      have hT : (0 : ℚ) < (2 : ℚ) ^ t := zpow_pos (by norm_num) t
      have hDP : ((2 ^ (t - g).toNat : Nat) : ℚ) * (2 : ℚ) ^ g = (2 : ℚ) ^ t := by
        have := pow_shift t g hlt.le
        push_cast at this ⊢
        exact this
      have hdm := Nat.div_add_mod k (2 ^ (t - g).toNat)
      have hmod := Nat.mod_lt k (Nat.two_pow_pos (t - g).toNat)
      have hrhe : roundHalfEven k (2 ^ (t - g).toNat)
          = if 2 ^ (t - g).toNat < 2 * (k % 2 ^ (t - g).toNat)
              ∨ (2 * (k % 2 ^ (t - g).toNat) = 2 ^ (t - g).toNat
                ∧ k / 2 ^ (t - g).toNat % 2 = 1)
            then k / 2 ^ (t - g).toNat + 1 else k / 2 ^ (t - g).toNat := rfl
      generalize hD : 2 ^ (t - g).toNat = D at *
      generalize hq0 : k / D = q0 at *
      generalize hrem : k % D = rem at *
      have hx : (k : ℚ) * (2 : ℚ) ^ g = (q0 : ℚ) * (2 : ℚ) ^ t + (rem : ℚ) * (2 : ℚ) ^ g := by
        have : (k : ℚ) = (D : ℚ) * (q0 : ℚ) + (rem : ℚ) := by exact_mod_cast hdm.symm
        rw [this, ← hDP]
        ring
      have hremP : (0 : ℚ) ≤ (rem : ℚ) * (2 : ℚ) ^ g := by positivity
      have hm0 : (0 : ℚ) ≤ (m : ℚ) * (2 : ℚ) ^ e := by positivity
      have hq0T : (0 : ℚ) ≤ (q0 : ℚ) * (2 : ℚ) ^ t := by positivity
      have hTsplit : (2 : ℚ) ^ t = (D : ℚ) * (2 : ℚ) ^ g := hDP.symm
      -- a tie forces the remainder to be exactly one half
      have half : (2 * rem = D → (2 : ℚ) * ((rem : ℚ) * (2 : ℚ) ^ g) = (2 : ℚ) ^ t) := by
        intro h
        rw [hTsplit, ← mul_assoc]
        congr 1
        exact_mod_cast h
      have halfconv : ((2 : ℚ) * ((rem : ℚ) * (2 : ℚ) ^ g) = (2 : ℚ) ^ t → 2 * rem = D) := by
        intro h
        rw [hTsplit, ← mul_assoc] at h
        have := mul_right_cancel₀ hP.ne' h
        exact_mod_cast this
      have hle2 : (2 * rem ≤ D → (2 : ℚ) * ((rem : ℚ) * (2 : ℚ) ^ g) ≤ (2 : ℚ) ^ t) := by
        intro h
        rw [hTsplit, ← mul_assoc]
        exact mul_le_mul_of_nonneg_right (by exact_mod_cast h) hP.le
      have hge2 : (D ≤ 2 * rem → (2 : ℚ) ^ t ≤ (2 : ℚ) * ((rem : ℚ) * (2 : ℚ) ^ g)) := by
        intro h
        rw [hTsplit, ← mul_assoc]
        exact mul_le_mul_of_nonneg_right (by exact_mod_cast h) hP.le
      have hremT : (rem : ℚ) * (2 : ℚ) ^ g ≤ (2 : ℚ) ^ t := by
        rw [hTsplit]
        exact mul_le_mul_of_nonneg_right (by exact_mod_cast hmod.le) hP.le
      rw [toRat_abs] at hd hne
      push_cast at hgap
      by_cases hup : D < 2 * rem ∨ (2 * rem = D ∧ q0 % 2 = 1)
      · -- rounded up
        rw [hrhe, if_pos hup] at hd hne ⊢
        have hh := hge2 (by omega)
        have htie : 2 * rem = D := by
          apply halfconv
          push_cast at hd hne
          cases neg <;> cases c <;>
            simp only [Bool.false_eq_true, if_false, if_true] at hd hne <;>
            rcases hgap with hg | hg <;>
            first
              | (exfalso; apply hne; rw [abs_eq_abs] at hd; rcases hd with h | h <;> linarith)
              | (rw [abs_eq_abs] at hd; rcases hd with h | h <;> linarith)
        omega
      · -- rounded down
        rw [hrhe, if_neg hup] at hd hne ⊢
        have hh := hle2 (by omega)
        have htie : 2 * rem = D := by
          apply halfconv
          cases neg <;> cases c <;>
            simp only [Bool.false_eq_true, if_false, if_true] at hd hne <;>
            rcases hgap with hg | hg <;>
            first
              | (exfalso; apply hne; rw [abs_eq_abs] at hd; rcases hd with h | h <;> linarith)
              | (rw [abs_eq_abs] at hd; rcases hd with h | h <;> linarith)
        omega

/-- What `add` computes on finite data: the exact sum is `z * 2^g`, and the
result is a zero when `z = 0` and `round` of its magnitude otherwise. -/
theorem add_fin_eq (a : Bool) (m : Nat) (e : Int) (b : Bool) (n : Nat) (f : Int) :
    ∃ z : Int, (z : ℚ) * (2 : ℚ) ^ (min e f) = toRat (fin a m e) + toRat (fin b n f)
      ∧ add (fin a m e) (fin b n f)
        = if z = 0 then fin (a && b) 0 (-149) else round (decide (z < 0)) z.natAbs (min e f) :=
  ⟨_, add_aligned a m e b n f, rfl⟩

theorem int_split (z : Int) (g : Int) :
    (z : ℚ) * (2 : ℚ) ^ g
      = (if decide (z < 0) = true then -1 else 1) * (((z.natAbs : Nat) : ℚ) * (2 : ℚ) ^ g) := by
  by_cases hneg : z < 0
  · have hd : decide (z < 0) = true := by simp; omega
    rw [hd, Nat.cast_natAbs, abs_of_neg hneg]
    push_cast
    simp
  · have hd : decide (z < 0) = false := by simp; omega
    rw [hd, Nat.cast_natAbs, abs_of_nonneg (by omega)]
    simp

theorem int_abs_split (z : Int) (g : Int) :
    ((z.natAbs : Nat) : ℚ) * (2 : ℚ) ^ g = |(z : ℚ) * (2 : ℚ) ^ g| := by
  rw [abs_mul, abs_of_pos (zpow_pos (by norm_num : (0 : ℚ) < 2) g), Nat.cast_natAbs]
  push_cast
  rfl

/-- Whatever is added, the result is a binary32 datum. -/
theorem add_canonical (x y : F32) : Canonical (add x y) := by
  cases x with
  | nan => cases y <;> trivial
  | inf a =>
    cases y with
    | nan => trivial
    | inf b =>
      simp only [add]
      split <;> trivial
    | fin b n f => trivial
  | fin a m e =>
    cases y with
    | nan => trivial
    | inf b => trivial
    | fin b n f =>
      obtain ⟨z, _, hadd⟩ := add_fin_eq a m e b n f
      rw [hadd]
      split
      · exact ⟨by decide, by decide, by decide, Or.inl rfl⟩
      · exact round_canonical _ _ _

theorem neg_canonical (x : F32) (h : Canonical x) : Canonical (neg x) := by
  cases x with
  | nan => trivial
  | inf a => trivial
  | fin a m e => exact h

theorem sub_canonical (x y : F32) : Canonical (sub x y) := add_canonical x (neg y)

theorem ofInt_canonical (a : Int) : Canonical (ofInt a) := round_canonical _ _ _

/-- Adding finite data does not overflow as long as the exact sum stays
below the midpoint between the largest finite value and `2^128`. -/
theorem add_finite (x y : F32) (hx : x.isFinite = true) (hy : y.isFinite = true)
    (h : 2 * |toRat x + toRat y| < (2 ^ 25 - 1) * (2 : ℚ) ^ (104 : Int)) :
    (add x y).isFinite = true := by
  cases x with
  | nan => simp [isFinite] at hx
  | inf a => simp [isFinite] at hx
  | fin a m e =>
    cases y with
    | nan => simp [isFinite] at hy
    | inf b => simp [isFinite] at hy
    | fin b n f =>
      obtain ⟨z, hz, hadd⟩ := add_fin_eq a m e b n f
      rw [hadd]
      split
      · rfl
      · apply round_finite
        rw [int_abs_split, hz]
        exact h

theorem sub_finite (x y : F32) (hx : x.isFinite = true) (hy : y.isFinite = true)
    (h : 2 * |toRat x - toRat y| < (2 ^ 25 - 1) * (2 : ℚ) ^ (104 : Int)) :
    (sub x y).isFinite = true := by
  apply add_finite x (neg y) hx (by rw [neg_isFinite]; exact hy)
  rw [neg_toRat]
  have e1 : toRat x + -toRat y = toRat x - toRat y := by ring
  rw [e1]
  exact h

theorem ofInt_finite (a : Int)
    (h : 2 * |(a : ℚ)| < (2 ^ 25 - 1) * (2 : ℚ) ^ (104 : Int)) :
    (ofInt a).isFinite = true := by
  apply round_finite
  have := int_abs_split a 0
  simp only [zpow_zero, mul_one] at this ⊢
  rw [this]
  exact h

theorem add_tie_even (x y v : F32) (hx : x.isFinite = true) (hy : y.isFinite = true)
    (hfin : (add x y).isFinite = true) (hc : Canonical v) (hvf : v.isFinite = true)
    (hd : |toRat v - (toRat x + toRat y)| = |toRat (add x y) - (toRat x + toRat y)|)
    (hne : toRat v ≠ toRat (add x y)) :
    (add x y).significand % 2 = 0 := by
  cases x with
  | nan => simp [isFinite] at hx
  | inf a => simp [isFinite] at hx
  | fin a m e =>
    cases y with
    | nan => simp [isFinite] at hy
    | inf b => simp [isFinite] at hy
    | fin b n f =>
      obtain ⟨z, hz, hadd⟩ := add_fin_eq a m e b n f
      rw [← hz] at hd
      rw [hadd] at hfin hd hne ⊢
      by_cases hz0 : z = 0
      · simp only [hz0, if_true]
        rfl
      · simp only [hz0, if_false] at hfin hd hne ⊢
        rw [int_split] at hd
        exact round_tie_even (decide (z < 0)) z.natAbs (min e f) (by omega) hfin v hc hvf hd hne

theorem sub_tie_even (x y v : F32) (hx : x.isFinite = true) (hy : y.isFinite = true)
    (hfin : (sub x y).isFinite = true) (hc : Canonical v) (hvf : v.isFinite = true)
    (hd : |toRat v - (toRat x - toRat y)| = |toRat (sub x y) - (toRat x - toRat y)|)
    (hne : toRat v ≠ toRat (sub x y)) :
    (sub x y).significand % 2 = 0 := by
  have e1 : toRat x - toRat y = toRat x + toRat (neg y) := by rw [neg_toRat]; ring
  rw [e1] at hd
  exact add_tie_even x (neg y) v hx (by rw [neg_isFinite]; exact hy) hfin hc hvf hd hne

theorem ofInt_tie_even (a : Int) (v : F32) (hfin : (ofInt a).isFinite = true)
    (hc : Canonical v) (hvf : v.isFinite = true)
    (hd : |toRat v - (a : ℚ)| = |toRat (ofInt a) - (a : ℚ)|)
    (hne : toRat v ≠ toRat (ofInt a)) :
    (ofInt a).significand % 2 = 0 := by
  by_cases h0 : a = 0
  · subst h0
    decide
  · have hs := int_split a 0
    simp only [zpow_zero, mul_one] at hs
    rw [hs] at hd
    have := round_tie_even (decide (a < 0)) a.natAbs 0 (by omega) hfin v hc hvf
      (by simpa using hd) hne
    exact this

/-- The conversion of an `int` never overflows and stays within twice the
magnitude of the integer. -/
theorem ofInt_int_range (a : Int) (h0 : 0 < a) (h1 : a ≤ 2147483647) :
    (ofInt a).isFinite = true ∧ 0 ≤ toRat (ofInt a) ∧ toRat (ofInt a) ≤ 2 * (a : ℚ) := by
  have ha : (0 : ℚ) < (a : ℚ) := by exact_mod_cast h0
  have hb : (a : ℚ) ≤ 2147483647 := by exact_mod_cast h1
  have hfin : (ofInt a).isFinite = true := by
    apply ofInt_finite
    rw [abs_of_pos ha]
    have : (2 : ℚ) * 2147483647 < (2 ^ 25 - 1) * (2 : ℚ) ^ (104 : Int) := by norm_num
    linarith
  have hn := ofInt_nearest a zero hfin (by decide) rfl
  have hz : toRat zero = 0 := by simp [toRat, zero]
  rw [hz, zero_sub, abs_neg, abs_of_pos ha, abs_le] at hn
  refine ⟨hfin, ?_, by linarith⟩
  linarith

/-- The results of `add` are roundings of the exact sum. -/
theorem add_isRounding (x y : F32) (hx : x.isFinite = true) (hy : y.isFinite = true)
    (h : 2 * |toRat x + toRat y| < (2 ^ 25 - 1) * (2 : ℚ) ^ (104 : Int)) :
    IsRounding (add x y) (toRat x + toRat y) := by
  have hfin := add_finite x y hx hy h
  exact ⟨add_canonical x y, hfin,
    fun v hc hvf => add_nearest x y v hx hy hfin hc hvf,
    fun v hc hvf hd hne => add_tie_even x y v hx hy hfin hc hvf hd hne⟩

/-- The results of `sub` are roundings of the exact difference. -/
theorem sub_isRounding (x y : F32) (hx : x.isFinite = true) (hy : y.isFinite = true)
    (h : 2 * |toRat x - toRat y| < (2 ^ 25 - 1) * (2 : ℚ) ^ (104 : Int)) :
    IsRounding (sub x y) (toRat x - toRat y) := by
  have hfin := sub_finite x y hx hy h
  exact ⟨sub_canonical x y, hfin,
    fun v hc hvf => sub_nearest x y v hx hy hfin hc hvf,
    fun v hc hvf hd hne => sub_tie_even x y v hx hy hfin hc hvf hd hne⟩

/-- The conversion of a positive `int` is a rounding of the integer. -/
theorem ofInt_isRounding (a : Int) (h0 : 0 < a) (h1 : a ≤ 2147483647) :
    IsRounding (ofInt a) (a : ℚ) := by
  have hfin := (ofInt_int_range a h0 h1).1
  exact ⟨ofInt_canonical a, hfin,
    fun v hc hvf => ofInt_nearest a v hfin hc hvf,
    fun v hc hvf hd hne => ofInt_tie_even a v hfin hc hvf hd hne⟩

end F32

/-! ## Deposits and withdrawals that go through -/

theorem performTransaction_withdraw_ok (s : Bank) (index : Nat)
    (balance currentBalance : F32) (amount : Int) (h0 : 0 < amount)
    (hl : amount ≤ WITHDRAW_LIMIT) (hb : F32.le (F32.ofInt amount) balance = true) :
    performTransaction 2 index balance currentBalance amount s =
      ⟨saveData { s with
          Acc_balance :=
            Function.update s.Acc_balance index (F32.sub balance (F32.ofInt amount)) },
        F32.sub balance (F32.ofInt amount), F32.sub balance (F32.ofInt amount),
        ["Enter amount to withdraw: ", "Withdrawal successful!\n",
          "Remaining Balance: "
            ++ String.mk (fmtFloat (F32.sub balance (F32.ofInt amount))) ++ "\n"]⟩ := by
  have h1 : 0 < amount ∧ amount ≤ WITHDRAW_LIMIT := ⟨h0, hl⟩
  simp only [performTransaction, h1, hb, if_true]
  rfl

theorem performTransaction_deposit_ok (s : Bank) (index : Nat)
    (balance currentBalance : F32) (amount : Int) (h0 : 0 < amount) :
    performTransaction 1 index balance currentBalance amount s =
      ⟨saveData { s with
          Acc_balance :=
            Function.update s.Acc_balance index (F32.add balance (F32.ofInt amount)) },
        F32.add balance (F32.ofInt amount), F32.add balance (F32.ofInt amount),
        ["Enter amount to deposit: ", "Deposit successful!\n",
          "Remaining Balance: "
            ++ String.mk (fmtFloat (F32.add balance (F32.ofInt amount))) ++ "\n"]⟩ := by
  simp only [performTransaction, h0, if_true]

set_option maxRecDepth 100000 in
/-- C4, as stated, fails: after a deposit of `16777218` into the new account
of the scenario the balance is `16777218`, and a withdrawal of `1` then
succeeds and stores `16777216`, not `16777217`. -/
theorem withdraw_exact_counterexample :
    (scenarioDeposit 16777218).balance = F32.ofInt 16777218
    ∧ (scenarioDeposit 16777218).bank.Acc_balance 0 = F32.ofInt 16777218
    ∧ (F32.ofInt 16777218).toRat = 16777218
    ∧ (0 : Int) < 1 ∧ (1 : Int) ≤ WITHDRAW_LIMIT
    ∧ F32.le (F32.ofInt 1) (F32.ofInt 16777218) = true
    ∧ (performTransaction 2 0 (F32.ofInt 16777218) (F32.ofInt 16777218) 1
        (scenarioDeposit 16777218).bank).out =
        ["Enter amount to withdraw: ", "Withdrawal successful!\n",
          "Remaining Balance: 1.67772e+07\n"]
    ∧ (performTransaction 2 0 (F32.ofInt 16777218) (F32.ofInt 16777218) 1
        (scenarioDeposit 16777218).bank).bank.Acc_balance 0 = F32.ofInt 16777216
    ∧ ((performTransaction 2 0 (F32.ofInt 16777218) (F32.ofInt 16777218) 1
        (scenarioDeposit 16777218).bank).bank.Acc_balance 0).toRat
        ≠ (F32.ofInt 16777218).toRat - 1 := by
  have hB : F32.ofInt 16777218 = F32.fin false 8388609 1 := by decide
  have hS : (performTransaction 2 0 (F32.ofInt 16777218) (F32.ofInt 16777218) 1
      (scenarioDeposit 16777218).bank).bank.Acc_balance 0 = F32.fin false 8388608 1 := by
    decide
  have hV : (F32.ofInt 16777218).toRat = 16777218 := by
    rw [hB]; norm_num [F32.toRat]
  have hN : ((performTransaction 2 0 (F32.ofInt 16777218) (F32.ofInt 16777218) 1
      (scenarioDeposit 16777218).bank).bank.Acc_balance 0).toRat
      ≠ (F32.ofInt 16777218).toRat - 1 := by
    rw [hS, hB]; norm_num [F32.toRat]
  repeat' apply And.intro
  all_goals first | exact hV | exact hN | decide

/-- C4, amended: with `0 < amount <= WITHDRAW_LIMIT` and `amount <= balance`
(as `float`s; for a finite balance the comparison of the numbers, see
`F32.ofInt_le_iff`) the withdrawal goes through: the slot `index`, `balance`
and `currentBalance` all receive the `float` difference of `balance` and
`amount`, nothing else in the arrays changes and the file is rewritten.  The
stored value is a binary32 datum and is not negative; for a finite binary32
balance it is the rounding of the exact difference (`F32.IsRounding`: finite,
no binary32 number closer, ties to the even significand), hence the exact
difference whenever that is a binary32 number. -/
theorem withdraw_stores_rounded_difference (s : Bank) (index : Nat)
    (balance currentBalance : F32) (amount : Int) (h0 : 0 < amount)
    (hl : amount ≤ WITHDRAW_LIMIT) (hb : F32.le (F32.ofInt amount) balance = true) :
    (performTransaction 2 index balance currentBalance amount s).out =
        ["Enter amount to withdraw: ", "Withdrawal successful!\n",
          "Remaining Balance: "
            ++ String.mk (fmtFloat (F32.sub balance (F32.ofInt amount))) ++ "\n"]
    ∧ (performTransaction 2 index balance currentBalance amount s).bank.Acc_balance index
        = F32.sub balance (F32.ofInt amount)
    ∧ (performTransaction 2 index balance currentBalance amount s).balance
        = F32.sub balance (F32.ofInt amount)
    ∧ (performTransaction 2 index balance currentBalance amount s).currentBalance
        = F32.sub balance (F32.ofInt amount)
    ∧ (F32.ofInt amount).toRat = (amount : ℚ)
    ∧ (∀ i, i ≠ index →
        (performTransaction 2 index balance currentBalance amount s).bank.Acc_balance i
          = s.Acc_balance i)
    ∧ (performTransaction 2 index balance currentBalance amount s).bank.Acc_num = s.Acc_num
    ∧ (performTransaction 2 index balance currentBalance amount s).bank.Acc_name = s.Acc_name
    ∧ (performTransaction 2 index balance currentBalance amount s).bank.Acc_surname
        = s.Acc_surname
    ∧ (performTransaction 2 index balance currentBalance amount s).bank.Acc_password
        = s.Acc_password
    ∧ (performTransaction 2 index balance currentBalance amount s).bank.totalAccounts
        = s.totalAccounts
    ∧ (performTransaction 2 index balance currentBalance amount s).bank.file
        = some (saveLoop (performTransaction 2 index balance currentBalance amount s).bank
            s.totalAccounts 0)
    ∧ F32.le F32.zero
        ((performTransaction 2 index balance currentBalance amount s).bank.Acc_balance index)
        = true
    ∧ (balance.isFinite = true →
        (∃ v : F32, v.Canonical ∧ v.isFinite = true ∧ v.toRat = balance.toRat - (amount : ℚ)) →
        ((performTransaction 2 index balance currentBalance amount s).bank.Acc_balance
            index).isFinite = true
        ∧ ((performTransaction 2 index balance currentBalance amount s).bank.Acc_balance
            index).toRat = balance.toRat - (amount : ℚ))
    ∧ (balance.isFinite = true →
        ((performTransaction 2 index balance currentBalance amount s).bank.Acc_balance
            index).isFinite = true →
        ∀ v : F32, v.Canonical → v.isFinite = true →
          |((performTransaction 2 index balance currentBalance amount s).bank.Acc_balance
              index).toRat - (balance.toRat - (amount : ℚ))|
            ≤ |v.toRat - (balance.toRat - (amount : ℚ))|)
    ∧ ((performTransaction 2 index balance currentBalance amount s).bank.Acc_balance
        index).Canonical
    ∧ (balance.Canonical → balance.isFinite = true →
        F32.IsRounding
          ((performTransaction 2 index balance currentBalance amount s).bank.Acc_balance index)
          (balance.toRat - (amount : ℚ))) := by
  have hlim : amount ≤ 2 ^ 24 := by
    have : WITHDRAW_LIMIT = 300000 := rfl
    omega
  obtain ⟨m, e, hfin, _, hval⟩ := F32.ofInt_exact amount h0 hlim
  rw [performTransaction_withdraw_ok s index balance currentBalance amount h0 hl hb]
  have hy : (F32.ofInt amount).isFinite = true := by rw [hfin]; rfl
  have hst : (saveData { s with
      Acc_balance :=
        Function.update s.Acc_balance index (F32.sub balance (F32.ofInt amount)) }).Acc_balance
      index = F32.sub balance (F32.ofInt amount) := by simp [saveData]
  refine ⟨rfl, ?_, rfl, rfl, hval, ?_, rfl, rfl, rfl, rfl, rfl, ?_, ?_, ?_, ?_, ?_, ?_⟩
  · simp [saveData]
  · intro i hi
    simp [saveData, Function.update_noteq hi]
  · exact saveData_file _
  · have hst : (saveData { s with
        Acc_balance :=
          Function.update s.Acc_balance index (F32.sub balance (F32.ofInt amount)) }).Acc_balance
        index = F32.sub balance (F32.ofInt amount) := by simp [saveData]
    rw [hst, hfin]
    rw [hfin] at hb
    exact F32.sub_nonneg_of_le balance m e hb
  · intro hfinB hex
    obtain ⟨v, hc, hvf, hv⟩ := hex
    have hst : (saveData { s with
        Acc_balance :=
          Function.update s.Acc_balance index (F32.sub balance (F32.ofInt amount)) }).Acc_balance
        index = F32.sub balance (F32.ofInt amount) := by simp [saveData]
    rw [hst]
    have hy : (F32.ofInt amount).isFinite = true := by rw [hfin]; rfl
    have := F32.sub_exact balance (F32.ofInt amount) v hfinB hy hc hvf (by rw [hval]; exact hv)
    rw [hval] at this
    exact this
  · intro hfinB hfinS v hc hvf
    rw [hst] at hfinS ⊢
    have := F32.sub_nearest balance (F32.ofInt amount) v hfinB hy hfinS hc hvf
    rw [hval] at this
    exact this
  · rw [hst]
    exact F32.sub_canonical _ _
  · intro hcB hfinB
    rw [hst]
    have hbound := F32.canonical_bound balance hcB hfinB
    have hle := (F32.ofInt_le_iff amount h0 hlim balance hfinB).1 hb
    have ha : (0 : ℚ) < (amount : ℚ) := by exact_mod_cast h0
    have hX : (0 : ℚ) < (2 : ℚ) ^ (104 : Int) := by positivity
    have habs : |balance.toRat - (amount : ℚ)| ≤ |balance.toRat| := by
      rw [abs_of_nonneg (by linarith), abs_of_nonneg (by linarith)]
      linarith
    have := F32.sub_isRounding balance (F32.ofInt amount) hfinB hy
      (by rw [hval]; nlinarith)
    rw [hval] at this
    exact this

/-- C4 at work: from the balance `16777218` the withdrawal of `1` stores
the rounding of `16777217`, which is `16777216`; from `5000` the withdrawal
of `2000` stores exactly `3000`. -/
theorem withdraw_stores_rounded_difference_witness :
    F32.IsRounding
        ((performTransaction 2 0 (F32.ofInt 16777218) (F32.ofInt 16777218) 1
          (scenarioDeposit 16777218).bank).bank.Acc_balance 0)
        ((F32.ofInt 16777218).toRat - ((1 : Int) : ℚ))
    ∧ (performTransaction 2 0 (F32.ofInt 16777218) (F32.ofInt 16777218) 1
        (scenarioDeposit 16777218).bank).bank.Acc_balance 0 = F32.ofInt 16777216
    ∧ F32.le F32.zero
        ((performTransaction 2 0 (F32.ofInt 16777218) (F32.ofInt 16777218) 1
          (scenarioDeposit 16777218).bank).bank.Acc_balance 0) = true
    ∧ (performTransaction 2 0 (F32.ofInt 5000) (F32.ofInt 5000) 2000
        (oneAccount (F32.ofInt 5000))).bank.Acc_balance 0 = F32.ofInt 3000
    ∧ ((performTransaction 2 0 (F32.ofInt 5000) (F32.ofInt 5000) 2000
        (oneAccount (F32.ofInt 5000))).bank.Acc_balance 0).toRat
        = (F32.ofInt 5000).toRat - ((2000 : Int) : ℚ) := by
  have g := withdraw_stores_rounded_difference (scenarioDeposit 16777218).bank 0
    (F32.ofInt 16777218) (F32.ofInt 16777218) 1 (by decide) (by decide) (by decide)
  obtain ⟨_, g2, _, _, _, _, _, _, _, _, _, _, g13, _, _, _, g17⟩ := g
  have h := withdraw_stores_rounded_difference (oneAccount (F32.ofInt 5000)) 0
    (F32.ofInt 5000) (F32.ofInt 5000) 2000 (by decide) (by decide) (by decide)
  obtain ⟨_, h2, _, _, _, _, _, _, _, _, _, _, _, h14, _⟩ := h
  have h5 : F32.ofInt 5000 = F32.fin false 10240000 (-11) := by decide
  have h3 : F32.ofInt 3000 = F32.fin false 12288000 (-12) := by decide
  refine ⟨g17 (by decide) (by decide), g2.trans (by decide), g13, h2.trans (by decide), ?_⟩
  refine (h14 (by decide) ⟨F32.ofInt 3000, by decide, by decide, ?_⟩).2
  rw [h5, h3]
  norm_num [F32.toRat]

set_option maxRecDepth 100000 in
/-- C5, as stated, fails: after a deposit of `16777216` into the new account
of the scenario the balance is `16777216`, and a deposit of `1` then
succeeds and stores `16777216` again, not `16777217`. -/
theorem deposit_exact_counterexample :
    (scenarioDeposit 16777216).balance = F32.ofInt 16777216
    ∧ (scenarioDeposit 16777216).bank.Acc_balance 0 = F32.ofInt 16777216
    ∧ (F32.ofInt 16777216).toRat = 16777216
    ∧ (0 : Int) < 1
    ∧ (performTransaction 1 0 (F32.ofInt 16777216) (F32.ofInt 16777216) 1
        (scenarioDeposit 16777216).bank).out =
        ["Enter amount to deposit: ", "Deposit successful!\n",
          "Remaining Balance: 1.67772e+07\n"]
    ∧ (performTransaction 1 0 (F32.ofInt 16777216) (F32.ofInt 16777216) 1
        (scenarioDeposit 16777216).bank).bank.Acc_balance 0 = F32.ofInt 16777216
    ∧ ((performTransaction 1 0 (F32.ofInt 16777216) (F32.ofInt 16777216) 1
        (scenarioDeposit 16777216).bank).bank.Acc_balance 0).toRat
        ≠ (F32.ofInt 16777216).toRat + 1 := by
  have hB : F32.ofInt 16777216 = F32.fin false 8388608 1 := by decide
  have hS : (performTransaction 1 0 (F32.ofInt 16777216) (F32.ofInt 16777216) 1
      (scenarioDeposit 16777216).bank).bank.Acc_balance 0 = F32.fin false 8388608 1 := by
    decide
  have hV : (F32.ofInt 16777216).toRat = 16777216 := by
    rw [hB]; norm_num [F32.toRat]
  have hN : ((performTransaction 1 0 (F32.ofInt 16777216) (F32.ofInt 16777216) 1
      (scenarioDeposit 16777216).bank).bank.Acc_balance 0).toRat
      ≠ (F32.ofInt 16777216).toRat + 1 := by
    rw [hS, hB]; norm_num [F32.toRat]
  repeat' apply And.intro
  all_goals first | exact hV | exact hN | decide

/-- C5, amended: a deposit of `amount > 0` goes through: the slot `index`,
`balance` and `currentBalance` all receive the `float` sum of `balance` and
`amount` converted to `float`, nothing else in the arrays changes and the
file is rewritten.  The stored value is a binary32 datum; for a finite
binary32 balance and an `amount` in the range of `int`, the converted amount
is the rounding of `amount` and the stored value is the rounding of the sum
of `balance` and the converted amount (`F32.IsRounding`: finite, no binary32
number closer, ties to the even significand), hence the exact sum whenever
`amount` is at most `2^24` and the sum is a binary32 number.  A deposit of
`amount <= 0` writes "Invalid amount!" and changes nothing. -/
theorem deposit_stores_rounded_sum (s : Bank) (index : Nat)
    (balance currentBalance : F32) (amount : Int) :
    (0 < amount →
      (performTransaction 1 index balance currentBalance amount s).out =
          ["Enter amount to deposit: ", "Deposit successful!\n",
            "Remaining Balance: "
              ++ String.mk (fmtFloat (F32.add balance (F32.ofInt amount))) ++ "\n"]
      ∧ (performTransaction 1 index balance currentBalance amount s).bank.Acc_balance index
          = F32.add balance (F32.ofInt amount)
      ∧ (performTransaction 1 index balance currentBalance amount s).balance
          = F32.add balance (F32.ofInt amount)
      ∧ (performTransaction 1 index balance currentBalance amount s).currentBalance
          = F32.add balance (F32.ofInt amount)
      ∧ (∀ i, i ≠ index →
          (performTransaction 1 index balance currentBalance amount s).bank.Acc_balance i
            = s.Acc_balance i)
      ∧ (performTransaction 1 index balance currentBalance amount s).bank.Acc_num = s.Acc_num
      ∧ (performTransaction 1 index balance currentBalance amount s).bank.Acc_name = s.Acc_name
      ∧ (performTransaction 1 index balance currentBalance amount s).bank.Acc_surname
          = s.Acc_surname
      ∧ (performTransaction 1 index balance currentBalance amount s).bank.Acc_password
          = s.Acc_password
      ∧ (performTransaction 1 index balance currentBalance amount s).bank.totalAccounts
          = s.totalAccounts
      ∧ (performTransaction 1 index balance currentBalance amount s).bank.file
          = some (saveLoop (performTransaction 1 index balance currentBalance amount s).bank
              s.totalAccounts 0)
      ∧ (balance.isFinite = true → amount ≤ 2 ^ 24 →
          (∃ v : F32, v.Canonical ∧ v.isFinite = true
            ∧ v.toRat = balance.toRat + (amount : ℚ)) →
          ((performTransaction 1 index balance currentBalance amount s).bank.Acc_balance
              index).isFinite = true
          ∧ ((performTransaction 1 index balance currentBalance amount s).bank.Acc_balance
              index).toRat = balance.toRat + (amount : ℚ))
      ∧ (balance.isFinite = true → (F32.ofInt amount).isFinite = true →
          ((performTransaction 1 index balance currentBalance amount s).bank.Acc_balance
              index).isFinite = true →
          ∀ v : F32, v.Canonical → v.isFinite = true →
            |((performTransaction 1 index balance currentBalance amount s).bank.Acc_balance
                index).toRat - (balance.toRat + (F32.ofInt amount).toRat)|
              ≤ |v.toRat - (balance.toRat + (F32.ofInt amount).toRat)|)
      ∧ ((F32.ofInt amount).isFinite = true →
          ∀ v : F32, v.Canonical → v.isFinite = true →
            |(F32.ofInt amount).toRat - (amount : ℚ)| ≤ |v.toRat - (amount : ℚ)|)
      ∧ (amount ≤ 2 ^ 24 → (F32.ofInt amount).toRat = (amount : ℚ))
      ∧ ((performTransaction 1 index balance currentBalance amount s).bank.Acc_balance
          index).Canonical
      ∧ (balance.Canonical → balance.isFinite = true → amount ≤ 2147483647 →
          F32.IsRounding (F32.ofInt amount) (amount : ℚ)
          ∧ F32.IsRounding
            ((performTransaction 1 index balance currentBalance amount s).bank.Acc_balance
              index)
            (balance.toRat + (F32.ofInt amount).toRat)))
    ∧ (amount ≤ 0 →
        performTransaction 1 index balance currentBalance amount s =
          ⟨s, balance, currentBalance, ["Enter amount to deposit: ", "Invalid amount!\n"]⟩) := by
  constructor
  · intro h0
    rw [performTransaction_deposit_ok s index balance currentBalance amount h0]
    have hst : (saveData { s with
        Acc_balance :=
          Function.update s.Acc_balance index
            (F32.add balance (F32.ofInt amount)) }).Acc_balance
        index = F32.add balance (F32.ofInt amount) := by simp [saveData]
    refine ⟨rfl, ?_, rfl, rfl, ?_, rfl, rfl, rfl, rfl, rfl, ?_, ?_, ?_, ?_, ?_, ?_, ?_⟩
    · simp [saveData]
    · intro i hi
      simp [saveData, Function.update_noteq hi]
    · exact saveData_file _
    · intro hfinB hlim hex
      obtain ⟨v, hc, hvf, hv⟩ := hex
      obtain ⟨m, e, hfin, _, hval⟩ := F32.ofInt_exact amount h0 hlim
      rw [hst]
      have hy : (F32.ofInt amount).isFinite = true := by rw [hfin]; rfl
      have := F32.add_exact balance (F32.ofInt amount) v hfinB hy hc hvf
        (by rw [hval]; exact hv)
      rw [hval] at this
      exact this
    · intro hfinB hy hfinS v hc hvf
      rw [hst] at hfinS ⊢
      exact F32.add_nearest balance (F32.ofInt amount) v hfinB hy hfinS hc hvf
    · intro hy v hc hvf
      exact F32.ofInt_nearest amount v hy hc hvf
    · intro hlim
      obtain ⟨m, e, hfin, _, hval⟩ := F32.ofInt_exact amount h0 hlim
      exact hval
    · rw [hst]
      exact F32.add_canonical _ _
    · intro hcB hfinB hint
      rw [hst]
      obtain ⟨hy, hlo, hhi⟩ := F32.ofInt_int_range amount h0 hint
      have hbound := F32.canonical_bound balance hcB hfinB
      have hb : (amount : ℚ) ≤ 2147483647 := by exact_mod_cast hint
      have hX : (1 : ℚ) ≤ (2 : ℚ) ^ (104 : Int) := by norm_num
      have htri : |balance.toRat + (F32.ofInt amount).toRat|
          ≤ |balance.toRat| + (F32.ofInt amount).toRat := by
        have := abs_add balance.toRat (F32.ofInt amount).toRat
        rw [abs_of_nonneg hlo] at this
        exact this
      have hsmall : (2 : ℚ) * (2 * 2147483647) < (2 : ℚ) ^ (104 : Int) := by norm_num
      exact ⟨F32.ofInt_isRounding amount h0 hint,
        F32.add_isRounding balance (F32.ofInt amount) hfinB hy (by nlinarith)⟩
  · intro h0
    have h1 : ¬ (0 < amount) := by omega
    simp only [performTransaction, h1, if_false, if_true]

set_option maxRecDepth 100000 in
/-- C5 at work: on the balance `16777216` the deposit of `1` stores the
rounding of `16777217`, which is `16777216`; on `0.0` the deposit of `5000`
stores exactly `5000`; deposits of `-5` and `0` are refused. -/
theorem deposit_stores_rounded_sum_witness :
    F32.IsRounding
        ((performTransaction 1 0 (F32.ofInt 16777216) (F32.ofInt 16777216) 1
          (scenarioDeposit 16777216).bank).bank.Acc_balance 0)
        ((F32.ofInt 16777216).toRat + (F32.ofInt 1).toRat)
    ∧ (F32.ofInt 1).toRat = ((1 : Int) : ℚ)
    ∧ (performTransaction 1 0 (F32.ofInt 16777216) (F32.ofInt 16777216) 1
        (scenarioDeposit 16777216).bank).bank.Acc_balance 0 = F32.ofInt 16777216
    ∧ (performTransaction 1 0 F32.zero F32.zero 5000 (oneAccount F32.zero)).bank.Acc_balance 0
        = F32.ofInt 5000
    ∧ ((performTransaction 1 0 F32.zero F32.zero 5000
        (oneAccount F32.zero)).bank.Acc_balance 0).toRat = F32.zero.toRat + ((5000 : Int) : ℚ)
    ∧ performTransaction 1 0 F32.zero F32.zero (-5) (oneAccount F32.zero) =
        ⟨oneAccount F32.zero, F32.zero, F32.zero,
          ["Enter amount to deposit: ", "Invalid amount!\n"]⟩
    ∧ performTransaction 1 0 F32.zero F32.zero 0 (oneAccount F32.zero) =
        ⟨oneAccount F32.zero, F32.zero, F32.zero,
          ["Enter amount to deposit: ", "Invalid amount!\n"]⟩ := by
  have g := (deposit_stores_rounded_sum (scenarioDeposit 16777216).bank 0
    (F32.ofInt 16777216) (F32.ofInt 16777216) 1).1 (by decide)
  obtain ⟨_, g2, _, _, _, _, _, _, _, _, _, _, _, _, g15, _, g17⟩ := g
  have h := (deposit_stores_rounded_sum (oneAccount F32.zero) 0 F32.zero F32.zero 5000).1
    (by decide)
  obtain ⟨_, h2, _, _, _, _, _, _, _, _, _, h12, _⟩ := h
  have h5 : F32.ofInt 5000 = F32.fin false 10240000 (-11) := by decide
  refine ⟨(g17 (by decide) (by decide) (by decide)).2, g15 (by decide), g2.trans (by decide),
    h2.trans (by decide), ?_, ?_, ?_⟩
  · refine (h12 (by decide) (by decide) ⟨F32.ofInt 5000, by decide, by decide, ?_⟩).2
    rw [h5]
    norm_num [F32.toRat, F32.zero]
  · exact (deposit_stores_rounded_sum (oneAccount F32.zero) 0 F32.zero F32.zero (-5)).2
      (by decide)
  · exact (deposit_stores_rounded_sum (oneAccount F32.zero) 0 F32.zero F32.zero 0).2
      (by decide)

/-! ## The data file -/

set_option maxRecDepth 1000000 in
/-- C7: after a deposit of `1234567` into the new account of the scenario
the balance is `1234567` and the file holds it with six significant digits;
`saveData` followed by `loadData` then stores `1234570` in the slot: the
identifier, the names and the password come back, the balance does not. -/
theorem saveData_loadData_balance_digits :
    (scenarioDeposit 1234567).bank.totalAccounts = 1
    ∧ (scenarioDeposit 1234567).bank.Acc_num 0 = "12345"
    ∧ (scenarioDeposit 1234567).bank.Acc_name 0 = "Ali"
    ∧ (scenarioDeposit 1234567).bank.Acc_surname 0 = "Khan"
    ∧ (scenarioDeposit 1234567).bank.Acc_password 0 = 4321
    ∧ (scenarioDeposit 1234567).bank.Acc_balance 0 = F32.ofInt 1234567
    ∧ ((saveData (scenarioDeposit 1234567).bank).file).map String.mk
        = some "12345 Ali Khan 1.23457e+06 4321\n"
    ∧ (loadData (saveData (scenarioDeposit 1234567).bank)).overflowed = false
    ∧ (loadData (saveData (scenarioDeposit 1234567).bank)).bank.totalAccounts = 1
    ∧ (loadData (saveData (scenarioDeposit 1234567).bank)).bank.Acc_num 0 = "12345"
    ∧ (loadData (saveData (scenarioDeposit 1234567).bank)).bank.Acc_name 0 = "Ali"
    ∧ (loadData (saveData (scenarioDeposit 1234567).bank)).bank.Acc_surname 0 = "Khan"
    ∧ (loadData (saveData (scenarioDeposit 1234567).bank)).bank.Acc_password 0 = 4321
    ∧ (loadData (saveData (scenarioDeposit 1234567).bank)).bank.Acc_balance 0
        = F32.ofInt 1234570
    ∧ (loadData (saveData (scenarioDeposit 1234567).bank)).bank.Acc_balance 0
        ≠ (scenarioDeposit 1234567).bank.Acc_balance 0 := by
  repeat' apply And.intro
  all_goals decide

set_option maxRecDepth 1000000 in
/-- C10: a data file of `100` records loads into the `100` slots, and one of
`101` records makes `loadData` store into slot `100`, past the end of the
arrays, with `totalAccounts` already `100`. -/
theorem loadData_overflows_arrays :
    (loadData (Bank.start (some (recordsFile 100)))).overflowed = false
    ∧ (loadData (Bank.start (some (recordsFile 100)))).bank.totalAccounts = 100
    ∧ (loadData (Bank.start (some (recordsFile 101)))).overflowed = true
    ∧ (loadData (Bank.start (some (recordsFile 101)))).bank.totalAccounts = 100 := by
  repeat' apply And.intro
  all_goals decide

end BankLegacy
